import Mathlib

/-!
Verification of the npmx.dev connector core: operations store, execution
engine, session/auth gate, and command executor. The definitions below are a
shallow embedding of the TypeScript sources:

* `src/shared/test-utils/mock-connector-state.ts` (operations store and
  execution engine: `MockConnectorStateManager`),
* the connector HTTP service (`createConnectorApp` and `validateToken`),
* the npm client (`execNpm` and the per-operation wrappers).

Machine mutation is represented by explicit state passing; JavaScript `Date.now()`
and process spawning are oracle parameters; fallible paths return `Option` or
`Except`. JS truthiness on strings (`if (x)` where `x` may be `''`,
`null` or `undefined`) is modelled explicitly wherever the source relies on it.
-/

namespace Npmx

/-- Lifecycle states of a queued operation (`OperationStatus` in the source). -/
inductive OperationStatus
  | pending
  | approved
  | running
  | completed
  | failed
  | cancelled
deriving DecidableEq, Repr

/-- The fixed enumeration of mutation kinds (`OperationType`), plus a
constructor for arbitrary unknown strings flowing through the untyped JSON
boundary (the source's `default` switch branches handle those). -/
inductive OperationType
  | orgAddUser
  | orgRmUser
  | orgSetRole
  | teamCreate
  | teamDestroy
  | teamAddUser
  | teamRmUser
  | accessGrant
  | accessRevoke
  | ownerAdd
  | ownerRm
  | packageInit
  | unknownType (s : String)
deriving DecidableEq, Repr

/-- Rendering of an operation type, as interpolated into the
`Unknown operation type: ${type}` diagnostic by the source. -/
def OperationType.render : OperationType → String
  | .orgAddUser => "org:add-user"
  | .orgRmUser => "org:rm-user"
  | .orgSetRole => "org:set-role"
  | .teamCreate => "team:create"
  | .teamDestroy => "team:destroy"
  | .teamAddUser => "team:add-user"
  | .teamRmUser => "team:rm-user"
  | .accessGrant => "access:grant"
  | .accessRevoke => "access:revoke"
  | .ownerAdd => "owner:add"
  | .ownerRm => "owner:rm"
  | .packageInit => "package:init"
  | .unknownType s => s

/-- Result recorded on an operation after an execution attempt
(`OperationResult` in the source; the optional flags model the optional
`requiresOtp?` / `authFailure?` fields). -/
structure OperationResult where
  stdout : String
  stderr : String
  exitCode : Int
  requiresOtp : Option Bool := none
  authFailure : Option Bool := none
deriving DecidableEq, Repr

/-- A queued operation (`PendingOperation` in the source). `params` is the
JS string-record, modelled as an association list preserving key order. -/
structure PendingOperation where
  id : String
  type : OperationType
  params : List (String × String)
  description : String
  command : String
  status : OperationStatus
  createdAt : Nat
  dependsOn : Option String := none
  result : Option OperationResult := none
deriving DecidableEq, Repr

/-! ### Association-list model of JS string-keyed records

JS object semantics: reading a missing key yields `undefined` (here `none`),
assignment overwrites in place or appends a new key, `delete` removes. -/

/-- Read a key from a JS-style record. -/
def getKey {α : Type} (l : List (String × α)) (k : String) : Option α :=
  (l.find? (fun p => p.1 == k)).map (·.2)

/-- Assign a key in a JS-style record (overwrite in place, else append). -/
def setKey {α : Type} (l : List (String × α)) (k : String) (v : α) : List (String × α) :=
  if l.any (fun p => p.1 == k) then
    l.map (fun p => if p.1 == k then (k, v) else p)
  else
    l ++ [(k, v)]

/-- Remove a key from a JS-style record (JS `delete`). -/
def delKey {α : Type} (l : List (String × α)) (k : String) : List (String × α) :=
  l.filter (fun p => p.1 != k)

/-- A param read followed by a JS truthiness test (`if (params['k'] && ...)`):
`undefined` and the empty string are falsy. -/
def truthyParam (params : List (String × String)) (k : String) : Option String :=
  match getKey params k with
  | none => none
  | some s => if s = "" then none else some s

/-- JS truthiness of an optional string (`if (x)` on `string | null |
undefined`). -/
def otpTruthy : Option String → Bool
  | none => false
  | some s => s ≠ ""

/-! ### Mock connector data model (`mock-connector-types.ts`) -/

/-- Org-level mock registry data (`MockOrgData`). Role strings flow through
unchecked `as OrgRole` casts in the source, so they are plain strings here. -/
structure MockOrgData where
  users : List (String × String)
  teams : List String
  teamMembers : List (String × List String)
deriving DecidableEq, Repr

/-- Package-level mock registry data (`MockPackageData`). -/
structure MockPackageData where
  collaborators : List (String × String)
deriving DecidableEq, Repr

/-- Configuration of the mock connector (`MockConnectorConfig`). -/
structure MockConnectorConfig where
  token : String
  npmUser : String
  avatar : Option String := none
  port : Option Nat := none
deriving DecidableEq, Repr

/-- Full mock connector state (`MockConnectorStateData`). -/
structure MockConnectorStateData where
  config : MockConnectorConfig
  connected : Bool
  connectedAt : Option Nat
  orgs : List (String × MockOrgData)
  packages : List (String × MockPackageData)
  userPackages : List (String × String)
  userOrgs : List String
  operations : List PendingOperation
  operationIdCounter : Nat
deriving DecidableEq, Repr

/-- `createMockConnectorState`. -/
def createMockConnectorState (config : MockConnectorConfig) : MockConnectorStateData :=
  { config := config
    connected := false
    connectedAt := none
    orgs := []
    packages := []
    userPackages := []
    userOrgs := []
    operations := []
    operationIdCounter := 0 }

/-! ### Operations store (`MockConnectorStateManager`) -/

/-- `connect(token)`: validates against the configured token; success records
the connection flag and timestamp (`Date.now()` is the `now` oracle). -/
def mockConnect (st : MockConnectorStateData) (token : String) (now : Nat) :
    MockConnectorStateData × Bool :=
  if token ≠ st.config.token then (st, false)
  else ({ st with connected := true, connectedAt := some now }, true)

/-- `disconnect()`. -/
def mockDisconnect (st : MockConnectorStateData) : MockConnectorStateData :=
  { st with connected := false, connectedAt := none, operations := [] }

/-- Input to `addOperation` (`NewOperationInput`). -/
structure NewOperationInput where
  type : OperationType
  params : List (String × String)
  description : String
  command : String
  dependsOn : Option String := none
deriving DecidableEq, Repr

/-- `addOperation`: assigns the fresh id `op-${++counter}`, initializes
`status = pending` and appends. -/
def addOperation (st : MockConnectorStateData) (input : NewOperationInput) (now : Nat) :
    MockConnectorStateData × PendingOperation :=
  let counter := st.operationIdCounter + 1
  let newOp : PendingOperation :=
    { id := "op-" ++ toString counter
      type := input.type
      params := input.params
      description := input.description
      command := input.command
      status := .pending
      createdAt := now
      dependsOn := input.dependsOn }
  ({ st with operationIdCounter := counter, operations := st.operations ++ [newOp] }, newOp)

/-- `getOperation(id)`: first operation with the given id (JS `Array.find`). -/
def findOp (st : MockConnectorStateData) (id : String) : Option PendingOperation :=
  st.operations.find? (fun op => op.id == id)

/-- Status of the operation found at an id, if any. -/
def statusOf (st : MockConnectorStateData) (id : String) : Option OperationStatus :=
  (findOp st id).map (·.status)

/-- In-place mutation of the first operation matching an id, as performed by
the source through the alias returned by `find`. -/
def updateOpFirst : List PendingOperation → String →
    (PendingOperation → PendingOperation) → List PendingOperation
  | [], _, _ => []
  | o :: rest, i, f =>
    if o.id == i then f o :: rest else o :: updateOpFirst rest i f

/-- `removeOperation(id)`: refuses unknown ids and `running` operations. -/
def removeOperation (st : MockConnectorStateData) (id : String) :
    MockConnectorStateData × Bool :=
  match st.operations.find? (fun op => op.id == id) with
  | none => (st, false)
  | some op =>
    if op.status = .running then (st, false)
    else
      let ops' := (st.operations.takeWhile (fun o => ¬(o.id == id))) ++
        (st.operations.dropWhile (fun o => ¬(o.id == id))).drop 1
      ({ st with operations := ops' }, true)

/-- `clearOperations()`: deletes every non-`running` operation and returns the
count removed. -/
def clearOperations (st : MockConnectorStateData) : MockConnectorStateData × Nat :=
  let removable := st.operations.filter (fun op => op.status ≠ .running)
  ({ st with operations := st.operations.filter (fun op => op.status = .running) },
    removable.length)

/-- `approveOperation(id)`: `pending → approved`, otherwise `null`. -/
def approveOperation (st : MockConnectorStateData) (id : String) :
    MockConnectorStateData × Option PendingOperation :=
  match st.operations.find? (fun op => op.id == id) with
  | none => (st, none)
  | some op =>
    if op.status ≠ .pending then (st, none)
    else
      let ops' := updateOpFirst st.operations id (fun o => { o with status := .approved })
      ({ st with operations := ops' }, some { op with status := .approved })

/-- The loop body of `approveAll()` on the operations list: every `pending`
operation becomes `approved` and is counted. -/
def approveAllList : List PendingOperation → List PendingOperation × Nat
  | [] => ([], 0)
  | op :: rest =>
    let (rest', n) := approveAllList rest
    if op.status = .pending then ({ op with status := .approved } :: rest', n + 1)
    else (op :: rest', n)

/-- `approveAll()`. -/
def approveAll (st : MockConnectorStateData) : MockConnectorStateData × Nat :=
  let (ops', n) := approveAllList st.operations
  ({ st with operations := ops' }, n)

/-- `retryOperation(id)`: `failed → approved` clearing the previous result,
otherwise `null`. -/
def retryOperation (st : MockConnectorStateData) (id : String) :
    MockConnectorStateData × Option PendingOperation :=
  match st.operations.find? (fun op => op.id == id) with
  | none => (st, none)
  | some op =>
    if op.status ≠ .failed then (st, none)
    else
      let ops' := updateOpFirst st.operations id
        (fun o => { o with status := .approved, result := none })
      ({ st with operations := ops' }, some { op with status := .approved, result := none })

/-! ### Execution engine (`executeOperations` and helpers) -/

/-- JS `scope.startsWith('@') ? scope : '@' + scope`. -/
def normalizeOrg (org : String) : String :=
  if org.startsWith "@" then org else "@" ++ org

/-- JS truthiness test on a possibly-undefined string coming out of a
destructuring (`const [scope, team] = ...; if (scope && team)`). -/
def truthyStr : Option String → Option String
  | none => none
  | some s => if s = "" then none else some s

/-- `applyOperationEffect`: side effects of a successful default-path operation
on the mirrored mock registry state. Mirrors the source's `switch` branch by
branch, including the JS truthiness guards on parameters. -/
def applyOperationEffect (op : PendingOperation) (st : MockConnectorStateData) :
    MockConnectorStateData :=
  match op.type with
  | .orgAddUser =>
    match truthyParam op.params "org", truthyParam op.params "user" with
    | some org, some user =>
      let role := (getKey op.params "role").getD "developer"
      let norg := normalizeOrg org
      let d := (getKey st.orgs norg).getD { users := [], teams := [], teamMembers := [] }
      { st with orgs := setKey st.orgs norg { d with users := setKey d.users user role } }
    | _, _ => st
  | .orgRmUser =>
    match truthyParam op.params "org", truthyParam op.params "user" with
    | some org, some user =>
      let norg := normalizeOrg org
      match getKey st.orgs norg with
      | none => st
      | some d => { st with orgs := setKey st.orgs norg { d with users := delKey d.users user } }
    | _, _ => st
  | .orgSetRole =>
    match truthyParam op.params "org", truthyParam op.params "user",
        truthyParam op.params "role" with
    | some org, some user, some role =>
      let norg := normalizeOrg org
      match getKey st.orgs norg with
      | none => st
      | some d => { st with orgs := setKey st.orgs norg { d with users := setKey d.users user role } }
    | _, _, _ => st
  | .teamCreate =>
    match truthyParam op.params "org", truthyParam op.params "team" with
    | some org, some team =>
      let norg := normalizeOrg org
      let d := (getKey st.orgs norg).getD { users := [], teams := [], teamMembers := [] }
      let d := { d with teams := if d.teams.contains team then d.teams else d.teams ++ [team] }
      let d := { d with teamMembers := setKey d.teamMembers team [] }
      { st with orgs := setKey st.orgs norg d }
    | _, _ => st
  | .teamDestroy =>
    match truthyParam op.params "org", truthyParam op.params "team" with
    | some org, some team =>
      let norg := normalizeOrg org
      match getKey st.orgs norg with
      | none => st
      | some d =>
        let d := { d with teams := d.teams.filter (fun t => t ≠ team),
                          teamMembers := delKey d.teamMembers team }
        { st with orgs := setKey st.orgs norg d }
    | _, _ => st
  | .teamAddUser =>
    match truthyParam op.params "scopeTeam", truthyParam op.params "user" with
    | some scopeTeam, some user =>
      let parts := scopeTeam.splitOn ":"
      match truthyStr (parts.get? 0), truthyStr (parts.get? 1) with
      | some scope, some team =>
        let nscope := normalizeOrg scope
        match getKey st.orgs nscope with
        | none => st
        | some d =>
          let members := (getKey d.teamMembers team).getD []
          let members := if members.contains user then members else members ++ [user]
          { st with orgs := setKey st.orgs nscope { d with teamMembers := setKey d.teamMembers team members } }
      | _, _ => st
    | _, _ => st
  | .teamRmUser =>
    match truthyParam op.params "scopeTeam", truthyParam op.params "user" with
    | some scopeTeam, some user =>
      let parts := scopeTeam.splitOn ":"
      match truthyStr (parts.get? 0), truthyStr (parts.get? 1) with
      | some scope, some team =>
        let nscope := normalizeOrg scope
        match getKey st.orgs nscope with
        | none => st
        | some d =>
          match getKey d.teamMembers team with
          | none => st
          | some members =>
            let members := members.filter (fun u => u ≠ user)
            { st with orgs := setKey st.orgs nscope { d with teamMembers := setKey d.teamMembers team members } }
      | _, _ => st
    | _, _ => st
  | .accessGrant =>
    match truthyParam op.params "package", truthyParam op.params "user" with
    | some pkg, some user =>
      let level := (getKey op.params "level").getD "read-write"
      let d := (getKey st.packages pkg).getD { collaborators := [] }
      { st with packages := setKey st.packages pkg { d with collaborators := setKey d.collaborators user level } }
    | _, _ => st
  | .accessRevoke =>
    match truthyParam op.params "package", truthyParam op.params "user" with
    | some pkg, some user =>
      match getKey st.packages pkg with
      | none => st
      | some d => { st with packages := setKey st.packages pkg { d with collaborators := delKey d.collaborators user } }
    | _, _ => st
  | .ownerAdd =>
    match truthyParam op.params "package", truthyParam op.params "user" with
    | some pkg, some user =>
      let d := (getKey st.packages pkg).getD { collaborators := [] }
      { st with packages := setKey st.packages pkg { d with collaborators := setKey d.collaborators user "read-write" } }
    | _, _ => st
  | .ownerRm =>
    match truthyParam op.params "package", truthyParam op.params "user" with
    | some pkg, some user =>
      match getKey st.packages pkg with
      | none => st
      | some d => { st with packages := setKey st.packages pkg { d with collaborators := delKey d.collaborators user } }
    | _, _ => st
  | .packageInit =>
    match truthyParam op.params "package" with
    | some pkg =>
      { st with
          packages := setKey st.packages pkg { collaborators := [(st.config.npmUser, "read-write")] }
          userPackages := setKey st.userPackages pkg "read-write" }
    | none => st
  | .unknownType _ => st

/-- The recursive `visit` closure of `sortByDependencies`, with the mutable
`result` / `visited` pair threaded explicitly. The fuel argument bounds the
recursion depth; each recursive step first records an unvisited id, so a fuel
of `operations.length + 1` is never exhausted (shown in the lemmas below). -/
def visitF : Nat → List PendingOperation → PendingOperation →
    List PendingOperation × List String → List PendingOperation × List String
  | 0, _, _, acc => acc
  | fuel + 1, ops, o, (res, vis) =>
    if vis.contains o.id then (res, vis)
    else
      let vis1 := o.id :: vis
      let (res1, vis2) :=
        match o.dependsOn with
        | none => (res, vis1)
        | some d =>
          match ops.find? (fun x => x.id == d) with
          | none => (res, vis1)
          | some dep => visitF fuel ops dep (res, vis1)
      (res1 ++ [o], vis2)

/-- `sortByDependencies(operations)`: visited-set based topological walk. -/
def sortByDependencies (ops : List PendingOperation) : List PendingOperation :=
  (ops.foldl (fun acc o => visitF (ops.length + 1) ops o acc) ([], [])).1

/-- A per-operation result configured for the mock through
`ExecuteOptions.results` (a `Partial<OperationResult>`). -/
structure ConfiguredResult where
  stdout : Option String := none
  stderr : Option String := none
  exitCode : Option Int := none
  requiresOtp : Option Bool := none
  authFailure : Option Bool := none
deriving DecidableEq, Repr

/-- Materialization of a configured result (`?? ''` / `?? 1` defaults as in
the source). -/
def ConfiguredResult.toResult (cfg : ConfiguredResult) : OperationResult :=
  { stdout := cfg.stdout.getD ""
    stderr := cfg.stderr.getD ""
    exitCode := cfg.exitCode.getD 1
    requiresOtp := cfg.requiresOtp
    authFailure := cfg.authFailure }

/-- `ExecuteOptions`. -/
structure ExecuteOptions where
  otp : Option String := none
  results : List (String × ConfiguredResult) := []
deriving DecidableEq, Repr

/-- `ExecuteResult`. -/
structure ExecuteResult where
  results : List OperationResult
  otpRequired : Option Bool := none
deriving DecidableEq, Repr

/-- The default mock success result (`{stdout: `Mock: ${op.command}`, ...}`). -/
def mockSuccessResult (op : PendingOperation) : OperationResult :=
  { stdout := "Mock: " ++ op.command, stderr := "", exitCode := 0 }

/-- Record an execution outcome on the operation with the given id: the source
sets `op.status = 'running'`, then immediately overwrites the status with the
final value and stores the result before anything can observe the transient
`running`; the net mutation is captured here. -/
def setOpResult (st : MockConnectorStateData) (id : String) (r : OperationResult)
    (s : OperationStatus) : MockConnectorStateData :=
  { st with operations :=
      updateOpFirst st.operations id (fun o => { o with status := s, result := some r }) }

/-- The `for (const op of sorted)` loop of `executeOperations`, over the
snapshot list produced by the dependency sort, threading the store state and
the accumulated `results` array. -/
def execLoop (opts : ExecuteOptions) :
    List PendingOperation → MockConnectorStateData → List OperationResult →
    MockConnectorStateData × ExecuteResult
  | [], st, acc => (st, { results := acc })
  | op :: rest, st, acc =>
    let depUnmet : Bool :=
      match op.dependsOn with
      | none => false
      | some d =>
        match st.operations.find? (fun x => x.id == d) with
        | none => true
        | some dep => decide (dep.status ≠ .completed)
    if depUnmet then execLoop opts rest st acc
    else
      match getKey opts.results op.id with
      | some cfg =>
        let result := cfg.toResult
        let st' := setOpResult st op.id result
          (if result.exitCode = 0 then .completed else .failed)
        let acc' := acc ++ [result]
        if result.requiresOtp.getD false ∧ ¬ otpTruthy opts.otp then
          (st', { results := acc', otpRequired := some true })
        else
          execLoop opts rest st' acc'
      | none =>
        let result := mockSuccessResult op
        let st' := setOpResult st op.id result .completed
        let st'' := applyOperationEffect op st'
        execLoop opts rest st'' (acc ++ [result])

/-- `executeOperations(options)`: selects the `approved` operations, orders
them by dependencies and drives the loop. -/
def executeOperations (opts : ExecuteOptions) (st : MockConnectorStateData) :
    MockConnectorStateData × ExecuteResult :=
  let approved := st.operations.filter (fun op => op.status = .approved)
  let sorted := sortByDependencies approved
  execLoop opts sorted st []

/-! ### Command Executor (`npm-client.ts`, `execNpm`) -/

/-- Whitespace trimming on a character list: JS `String.prototype.trim`
removes whitespace from both ends. -/
def trimChars (l : List Char) : List Char :=
  ((l.dropWhile Char.isWhitespace).reverse.dropWhile Char.isWhitespace).reverse

/-- JS `s.trim()`. -/
def jsTrim (s : String) : String :=
  String.mk (trimChars s.data)

/-- A string with no trailing whitespace. -/
def noTrailingWS (s : String) : Prop :=
  ∀ c, s.data.getLast? = some c → ¬ c.isWhitespace

/-- `NpmExecResult`: the structured result of one npm CLI invocation. -/
structure NpmExecResult where
  stdout : String
  stderr : String
  exitCode : Int
deriving DecidableEq, Repr

/-- Outcome of the awaited `execAsync` call: the promise either resolves with
the two streams, or rejects with an error object that may carry captured
streams and an exit code (`{ stdout?, stderr?, code? }`), plus its
`String(error)` rendering. Spawn failures and timeouts reject with no `code`;
a nonzero exit rejects with `code` set to that exit status. -/
inductive ExecOutcome
  | success (stdout stderr : String)
  | failure (stdout stderr : Option String) (code : Option Int) (errString : String)
deriving DecidableEq, Repr

/-- The command vector `['npm', ...args]` with the `--otp` flag appended when
an OTP is provided (`if (options.otp)`: JS truthiness, so an empty-string OTP
is not appended). -/
def npmCmd (args : List String) (otp : Option String) : List String :=
  let cmd := "npm" :: args
  if otpTruthy otp then cmd ++ ["--otp", otp.getD ""] else cmd

/-- `execNpm(args, options)`: runs the command through the spawn oracle `fn`
and converts every outcome — resolution or rejection — into a structured
`{stdout, stderr, exitCode}` value; the `try`/`catch` means no exception
propagates to the caller. -/
def execNpm (fn : List String → ExecOutcome) (args : List String)
    (otp : Option String) : NpmExecResult :=
  match fn (npmCmd args otp) with
  | .success stdout stderr =>
    { stdout := jsTrim stdout, stderr := jsTrim stderr, exitCode := 0 }
  | .failure stdout stderr code errString =>
    { stdout := (stdout.map jsTrim).getD ""
      stderr := (stderr.map jsTrim).getD errString
      exitCode := code.getD 1 }

/-! ### Session/Auth Gate (`validateToken` in `server.ts`) -/

/-- Remove the first occurrence of `pat` from a character list, or `none` when
there is no occurrence. -/
def removeFirstSub (pat : List Char) : List Char → Option (List Char)
  | [] => if pat.isPrefixOf ([] : List Char) then some [] else none
  | c :: rest =>
    if pat.isPrefixOf (c :: rest) then some ((c :: rest).drop pat.length)
    else (removeFirstSub pat rest).map (fun l => c :: l)

/-- JS `s.replace(pat, '')` for a literal string pattern: deletes the first
occurrence of `pat`, or returns `s` unchanged when `pat` does not occur. -/
def jsReplaceFirst (s pat : String) : String :=
  match removeFirstSub pat.data s.data with
  | some l => String.mk l
  | none => s

/-- `validateToken(authHeader)`: a missing/empty header fails (JS `!authHeader`
is true for `undefined`, `null` and `''`); otherwise the first occurrence of
`'Bearer '` is deleted (`authHeader.replace('Bearer ', '')`) and the remainder
is compared with the configured secret. -/
def validateToken (expectedToken : String) (authHeader : Option String) : Bool :=
  match authHeader with
  | none => false
  | some h => if h = "" then false else jsReplaceFirst h "Bearer " == expectedToken

/-! ### Connector Service (`createConnectorApp` in `server.ts`)

Each route handler is a function from the request data and the
process-lifetime `ConnectorState` to the successor state and an
`Except`-valued response (`createError` throws map to `.error`). Oracles:
`now` for `Date.now()`, fresh ids for `generateOperationId()`, `fn` for the
process spawner behind `execNpm`, `npmUser` for the `getNpmUser()` call. -/

/-- `ConnectorSession`. -/
structure ConnectorSession where
  token : String
  connectedAt : Nat
  npmUser : Option String
deriving DecidableEq, Repr

/-- The server-side `PendingOperation` (no `dependsOn`; `result` is a plain
`NpmExecResult`). -/
structure SrvOperation where
  id : String
  type : OperationType
  params : List (String × String)
  description : String
  command : String
  status : OperationStatus
  createdAt : Nat
  result : Option NpmExecResult := none
deriving DecidableEq, Repr

/-- `ConnectorState`. -/
structure ConnectorState where
  session : ConnectorSession
  operations : List SrvOperation
  otp : Option String
deriving DecidableEq, Repr

/-- An `h3` `createError` payload. -/
structure HttpError where
  statusCode : Nat
  message : String
deriving DecidableEq, Repr

/-- Read a param with JS non-null assertion semantics (`params.org!` followed
by string interpolation renders a genuinely missing key as `"undefined"`). -/
def paramD (params : List (String × String)) (k : String) : String :=
  (getKey params k).getD "undefined"

/-- `executeOperation(op, otp)`: the dispatch from operation type to the
npm-client wrapper, each of which is `execNpm` on a concrete argument vector.
Types without a `case` (including `org:set-role`) hit the `default` branch
and produce the synthetic "Unknown operation type" failure without invoking
the CLI. -/
def executeOperation (fn : List String → ExecOutcome) (op : SrvOperation)
    (otp : Option String) : NpmExecResult :=
  match op.type with
  | .orgAddUser =>
    execNpm fn ["org", "set", paramD op.params "org", paramD op.params "user",
      paramD op.params "role"] otp
  | .orgRmUser =>
    execNpm fn ["org", "rm", paramD op.params "org", paramD op.params "user"] otp
  | .teamCreate => execNpm fn ["team", "create", paramD op.params "scopeTeam"] otp
  | .teamDestroy => execNpm fn ["team", "destroy", paramD op.params "scopeTeam"] otp
  | .teamAddUser =>
    execNpm fn ["team", "add", paramD op.params "scopeTeam", paramD op.params "user"] otp
  | .teamRmUser =>
    execNpm fn ["team", "rm", paramD op.params "scopeTeam", paramD op.params "user"] otp
  | .accessGrant =>
    execNpm fn ["access", "grant", paramD op.params "permission",
      paramD op.params "scopeTeam", paramD op.params "pkg"] otp
  | .accessRevoke =>
    execNpm fn ["access", "revoke", paramD op.params "scopeTeam", paramD op.params "pkg"] otp
  | .ownerAdd =>
    execNpm fn ["owner", "add", paramD op.params "user", paramD op.params "pkg"] otp
  | .ownerRm =>
    execNpm fn ["owner", "rm", paramD op.params "user", paramD op.params "pkg"] otp
  | t => { stdout := "", stderr := "Unknown operation type: " ++ t.render, exitCode := 1 }

/-- The 401 response every guarded route throws on a failed token check. -/
def unauthorized : HttpError := { statusCode := 401, message := "Unauthorized" }

/-- `POST /connect`: the body's `token` must strictly equal the configured
secret (a missing body or missing field is `undefined` and never equal);
then the session records the resolved npm user and the connect timestamp.
The body is `Option (Option String)`: outer `none` models a missing body,
inner `none` a body without a `token` field. -/
def connectRoute (expectedToken : String) (npmUser : Option String) (now : Nat)
    (body : Option (Option String)) (st : ConnectorState) :
    ConnectorState × Except HttpError (Option String × Nat) :=
  if body.bind id ≠ some expectedToken then
    (st, .error { statusCode := 401, message := "Invalid token" })
  else
    ({ st with session := { st.session with connectedAt := now, npmUser := npmUser } },
      .ok (npmUser, now))

/-- `GET /state`. -/
def stateRoute (expectedToken : String) (auth : Option String) (st : ConnectorState) :
    ConnectorState × Except HttpError (Option String × List SrvOperation × Bool) :=
  if ¬ validateToken expectedToken auth then (st, .error unauthorized)
  else (st, .ok (st.session.npmUser, st.operations, otpTruthy st.otp))

/-- Request body for enqueueing one operation. -/
structure OperationInput where
  type : OperationType
  params : List (String × String)
  description : String
  command : String
deriving DecidableEq, Repr

/-- `POST /operations`. -/
def operationsRoute (expectedToken : String) (auth : Option String) (newId : String)
    (now : Nat) (body : OperationInput) (st : ConnectorState) :
    ConnectorState × Except HttpError SrvOperation :=
  if ¬ validateToken expectedToken auth then (st, .error unauthorized)
  else
    let operation : SrvOperation :=
      { id := newId, type := body.type, params := body.params,
        description := body.description, command := body.command,
        status := .pending, createdAt := now }
    ({ st with operations := st.operations ++ [operation] }, .ok operation)

/-- `POST /operations/batch`: enqueues each body element with its fresh id. -/
def batchRoute (expectedToken : String) (auth : Option String) (newIds : List String)
    (now : Nat) (body : List OperationInput) (st : ConnectorState) :
    ConnectorState × Except HttpError (List SrvOperation) :=
  if ¬ validateToken expectedToken auth then (st, .error unauthorized)
  else
    let created := (body.zip newIds).map (fun (op, i) =>
      ({ id := i, type := op.type, params := op.params,
         description := op.description, command := op.command,
         status := .pending, createdAt := now } : SrvOperation))
    ({ st with operations := st.operations ++ created }, .ok created)

/-- `POST /otp`: stores `body?.otp ?? null`. The body is
`Option (Option String)`: outer `none` models a missing body, inner `none` a
body without an `otp` field. -/
def otpRoute (expectedToken : String) (auth : Option String)
    (body : Option (Option String)) (st : ConnectorState) :
    ConnectorState × Except HttpError Unit :=
  if ¬ validateToken expectedToken auth then (st, .error unauthorized)
  else ({ st with otp := body.bind id }, .ok ())

/-- First server operation with a given id. -/
def srvFindOp (st : ConnectorState) (id : String) : Option SrvOperation :=
  st.operations.find? (fun op => op.id == id)

/-- In-place mutation of the first server operation matching an id. -/
def srvUpdateFirst : List SrvOperation → String → (SrvOperation → SrvOperation) →
    List SrvOperation
  | [], _, _ => []
  | o :: rest, i, f =>
    if o.id == i then f o :: rest else o :: srvUpdateFirst rest i f

/-- `POST /approve?id=`: 404 on unknown id, 400 unless `pending`. -/
def approveRoute (expectedToken : String) (auth : Option String) (id : String)
    (st : ConnectorState) : ConnectorState × Except HttpError SrvOperation :=
  if ¬ validateToken expectedToken auth then (st, .error unauthorized)
  else
    match srvFindOp st id with
    | none => (st, .error { statusCode := 404, message := "Operation not found" })
    | some op =>
      if op.status ≠ .pending then
        (st, .error { statusCode := 400, message := "Operation is not pending" })
      else
        let ops' := srvUpdateFirst st.operations id (fun o => { o with status := .approved })
        ({ st with operations := ops' }, .ok { op with status := .approved })

/-- `POST /approve-all`. -/
def srvApproveAllList : List SrvOperation → List SrvOperation × Nat
  | [] => ([], 0)
  | op :: rest =>
    let (rest', n) := srvApproveAllList rest
    if op.status = .pending then ({ op with status := .approved } :: rest', n + 1)
    else (op :: rest', n)

/-- `POST /approve-all`: every `pending` operation becomes `approved`; the
response carries the count of operations that were pending. -/
def approveAllRoute (expectedToken : String) (auth : Option String)
    (st : ConnectorState) : ConnectorState × Except HttpError Nat :=
  if ¬ validateToken expectedToken auth then (st, .error unauthorized)
  else
    let (ops', n) := srvApproveAllList st.operations
    ({ st with operations := ops' }, .ok n)

/-- The `for (const op of approvedOps)` loop of the `/execute` handler: each
approved operation is resolved through `executeOperation` with the stored OTP
(`state.otp ?? undefined`) and its result recorded. -/
def srvExecLoop (fn : List String → ExecOutcome) :
    List SrvOperation → ConnectorState → List (String × NpmExecResult) →
    ConnectorState × List (String × NpmExecResult)
  | [], st, acc => (st, acc)
  | op :: rest, st, acc =>
    let result := executeOperation fn op st.otp
    let status : OperationStatus := if result.exitCode = 0 then .completed else .failed
    let ops' := srvUpdateFirst st.operations op.id
      (fun o => { o with result := some result, status := status })
    srvExecLoop fn rest { st with operations := ops' } (acc ++ [(op.id, result)])

/-- `POST /execute`: runs every approved operation sequentially (the server
variant has no dependency skip and no OTP halt). -/
def executeRoute (expectedToken : String) (auth : Option String)
    (fn : List String → ExecOutcome) (st : ConnectorState) :
    ConnectorState × Except HttpError (List (String × NpmExecResult)) :=
  if ¬ validateToken expectedToken auth then (st, .error unauthorized)
  else
    let approved := st.operations.filter (fun op => op.status = .approved)
    let (st', results) := srvExecLoop fn approved st []
    (st', .ok results)

/-- `DELETE /operations?id=`: 404 on unknown id, 400 for `running`. -/
def deleteRoute (expectedToken : String) (auth : Option String) (id : String)
    (st : ConnectorState) : ConnectorState × Except HttpError Unit :=
  if ¬ validateToken expectedToken auth then (st, .error unauthorized)
  else
    match srvFindOp st id with
    | none => (st, .error { statusCode := 404, message := "Operation not found" })
    | some op =>
      if op.status = .running then
        (st, .error { statusCode := 400, message := "Cannot cancel running operation" })
      else
        let ops' := (st.operations.takeWhile (fun o => ¬(o.id == id))) ++
          (st.operations.dropWhile (fun o => ¬(o.id == id))).drop 1
        ({ st with operations := ops' }, .ok ())

/-- `DELETE /operations/all`: removes every non-`running` operation. -/
def deleteAllRoute (expectedToken : String) (auth : Option String)
    (st : ConnectorState) : ConnectorState × Except HttpError Nat :=
  if ¬ validateToken expectedToken auth then (st, .error unauthorized)
  else
    let removed := (st.operations.filter (fun op => op.status ≠ .running)).length
    ({ st with operations := st.operations.filter (fun op => op.status = .running) },
      .ok removed)

/-! ## Helper lemmas -/

section UpdateFirst

theorem updateOpFirst_map_id (l : List PendingOperation) (i : String)
    (f : PendingOperation → PendingOperation) (hf : ∀ o, (f o).id = o.id) :
    (updateOpFirst l i f).map (·.id) = l.map (·.id) := by
  induction l with
  | nil => rfl
  | cons o rest ih =>
    by_cases h : o.id == i
    · simp [updateOpFirst, h, hf]
    · simp [updateOpFirst, h, ih]

theorem find?_updateOpFirst_ne (l : List PendingOperation) (i j : String)
    (f : PendingOperation → PendingOperation) (hf : ∀ o, (f o).id = o.id)
    (hne : j ≠ i) :
    (updateOpFirst l i f).find? (fun o => o.id == j) = l.find? (fun o => o.id == j) := by
  induction l with
  | nil => rfl
  | cons o rest ih =>
    by_cases h : o.id == i
    · have hoi : o.id = i := by simpa using h
      have h1 : ((f o).id == j) = false := by simp [hf, hoi, Ne.symm hne]
      have h2 : (o.id == j) = false := by simp [hoi, Ne.symm hne]
      simp [updateOpFirst, h, List.find?, h1, h2]
    · by_cases h3 : o.id == j
      · simp [updateOpFirst, h, List.find?, h3]
      · simp [updateOpFirst, h, List.find?, h3, ih]

theorem find?_updateOpFirst_eq (l : List PendingOperation) (i : String)
    (f : PendingOperation → PendingOperation) (hf : ∀ o, (f o).id = o.id) :
    (updateOpFirst l i f).find? (fun o => o.id == i) =
      (l.find? (fun o => o.id == i)).map f := by
  induction l with
  | nil => rfl
  | cons o rest ih =>
    by_cases h : o.id == i
    · have h1 : ((f o).id == i) = true := by simp_all [hf]
      simp [updateOpFirst, h, List.find?, h1]
    · simp [updateOpFirst, h, List.find?, ih]

end UpdateFirst

section ApproveAllLemmas

/-- Characterization of the `approveAll` loop body. -/
theorem approveAllList_spec (l : List PendingOperation) :
    approveAllList l =
      (l.map (fun op => if op.status = .pending then { op with status := .approved } else op),
        (l.filter (fun op => op.status = .pending)).length) := by
  induction l with
  | nil => rfl
  | cons op rest ih =>
    by_cases h : op.status = .pending <;>
      simp [approveAllList, ih, h]

/-- Characterization of the server `approve-all` loop body. -/
theorem srvApproveAllList_spec (l : List SrvOperation) :
    srvApproveAllList l =
      (l.map (fun op => if op.status = .pending then { op with status := .approved } else op),
        (l.filter (fun op => op.status = .pending)).length) := by
  induction l with
  | nil => rfl
  | cons op rest ih =>
    by_cases h : op.status = .pending <;>
      simp [srvApproveAllList, ih, h]

end ApproveAllLemmas

section TrimLemmas

/-- The result of `jsTrim` never ends in whitespace. -/
theorem jsTrim_noTrailingWS (s : String) : noTrailingWS (jsTrim s) := by
  intro c hc
  have hdata : (jsTrim s).data =
      ((s.data.dropWhile Char.isWhitespace).reverse.dropWhile Char.isWhitespace).reverse := rfl
  rw [hdata, List.getLast?_reverse] at hc
  have h := List.head?_dropWhile_not Char.isWhitespace (s.data.dropWhile Char.isWhitespace).reverse
  simp_all

end TrimLemmas

section ReplaceLemmas

theorem removeFirstSub_of_leading_pat (pat l : List Char) (h : pat.isPrefixOf l = true) :
    removeFirstSub pat l = some (l.drop pat.length) := by
  cases l with
  | nil => simp [removeFirstSub, h]
  | cons c rest => simp [removeFirstSub, h]

theorem removeFirstSub_of_no_occurrence (pat l : List Char) (h : ¬ pat <:+: l) :
    removeFirstSub pat l = none := by
  induction l with
  | nil =>
    have hp : pat.isPrefixOf ([] : List Char) = false := by
      by_contra hcon
      have : pat <+: ([] : List Char) := by
        rw [← List.isPrefixOf_iff_prefix]
        simpa using hcon
      exact h this.isInfix
    simp [removeFirstSub, hp]
  | cons c rest ih =>
    have hp : pat.isPrefixOf (c :: rest) = false := by
      by_contra hcon
      have : pat <+: c :: rest := by
        rw [← List.isPrefixOf_iff_prefix]
        simpa using hcon
      exact h this.isInfix
    have hrest : ¬ pat <:+: rest := fun hcon => h (List.infix_cons hcon)
    simp [removeFirstSub, hp, ih hrest]

/-- A well-formed `Bearer <token>` header has exactly the token extracted. -/
theorem jsReplaceFirst_bearer (t : String) :
    jsReplaceFirst ("Bearer " ++ t) "Bearer " = t := by
  have hpre : ("Bearer ".data).isPrefixOf ("Bearer " ++ t).data = true := by
    rw [String.data_append, List.isPrefixOf_iff_prefix]
    exact ⟨t.data, rfl⟩
  unfold jsReplaceFirst
  rw [removeFirstSub_of_leading_pat _ _ hpre]
  rw [String.data_append, List.drop_left]

/-- When the pattern does not occur in the string, `replace` is the identity. -/
theorem jsReplaceFirst_of_no_occurrence (s pat : String) (h : ¬ pat.data <:+: s.data) :
    jsReplaceFirst s pat = s := by
  unfold jsReplaceFirst
  rw [removeFirstSub_of_no_occurrence _ _ h]

end ReplaceLemmas

/-! ## Dependency sort: invariants of the visited-set walk -/

/-- The in-list dependency of an operation: the first operation of `ops` whose
id is named by `dependsOn`, when any. -/
def depOf (ops : List PendingOperation) (x : PendingOperation) : Option PendingOperation :=
  match x.dependsOn with
  | none => none
  | some d => ops.find? (fun y => y.id == d)

/-- `res` lists every operation after its in-list dependency. -/
def TopoInvP (ops res : List PendingOperation) : Prop :=
  ∀ x ∈ res, ∀ dep, depOf ops x = some dep → res.indexOf dep < res.indexOf x

/-- Decidable form of `TopoInvP`. -/
def topoSortedB (ops res : List PendingOperation) : Bool :=
  res.all (fun x =>
    match depOf ops x with
    | none => true
    | some dep => res.indexOf dep < res.indexOf x)

theorem topoSortedB_iff (ops res : List PendingOperation) :
    topoSortedB ops res = true ↔ TopoInvP ops res := by
  unfold topoSortedB TopoInvP
  rw [List.all_eq_true]
  constructor
  · intro h x hx dep hdep
    have := h x hx
    rw [hdep] at this
    simpa using this
  · intro h x hx
    cases hdep : depOf ops x with
    | none => rfl
    | some dep => simpa using h x hx dep hdep

/-- A rank function certifying acyclicity: every in-list dependency edge
strictly decreases the rank. -/
def rankedB (r : String → Nat) (ops : List PendingOperation) : Bool :=
  ops.all (fun x =>
    match depOf ops x with
    | none => true
    | some dep => r dep.id < r x.id)

/-- Distinct ids identify operations within a list. -/
theorem eq_of_nodup_ids {l : List PendingOperation}
    (h : (l.map (·.id)).Nodup) {x y : PendingOperation}
    (hx : x ∈ l) (hy : y ∈ l) (hxy : x.id = y.id) : x = y := by
  induction l with
  | nil => cases hx
  | cons a rest ih =>
    simp only [List.map_cons, List.nodup_cons] at h
    rcases List.mem_cons.mp hx with rfl | hx' <;>
      rcases List.mem_cons.mp hy with rfl | hy'
    · rfl
    · exact absurd (hxy ▸ List.mem_map_of_mem (·.id) hy') h.1
    · exact absurd (hxy ▸ List.mem_map_of_mem (·.id) hx') h.1
    · exact ih h.2 hx' hy'

theorem length_filter_le_of_imp {α : Type} (l : List α) (p q : α → Bool)
    (h : ∀ x, q x = true → p x = true) :
    (l.filter q).length ≤ (l.filter p).length := by
  induction l with
  | nil => simp
  | cons a rest ih =>
    by_cases hq : q a
    · have hp := h a hq
      simp only [List.filter_cons, hq, hp, if_true, List.length_cons]
      omega
    · by_cases hp : p a <;>
        simp only [List.filter_cons, hq, hp, if_true, if_false, List.length_cons,
          Bool.false_eq_true, cond_false, cond_true] <;> omega

theorem length_filter_lt_of_witness {α : Type} (l : List α) (p q : α → Bool)
    (h : ∀ x, q x = true → p x = true) (a : α) (ha : a ∈ l) (hpa : p a = true)
    (hqa : q a = false) : (l.filter q).length < (l.filter p).length := by
  induction l with
  | nil => cases ha
  | cons b rest ih =>
    rcases List.mem_cons.mp ha with rfl | hmem
    · have hle := length_filter_le_of_imp rest p q h
      simp only [List.filter_cons, hpa, hqa, if_true, if_false, List.length_cons,
        Bool.false_eq_true, cond_false, cond_true]
      omega
    · by_cases hq : q b
      · have hp := h b hq
        simp only [List.filter_cons, hq, hp, if_true, List.length_cons, cond_true]
        exact Nat.succ_lt_succ (ih hmem)
      · by_cases hp : p b
        · simp only [List.filter_cons, hq, hp, if_true, if_false, List.length_cons,
            Bool.false_eq_true, cond_false, cond_true]
          have := ih hmem
          omega
        · simp only [List.filter_cons, hq, hp, Bool.false_eq_true, cond_false]
          exact ih hmem

/-- Number of operation ids not yet visited; the termination measure of the
recursive walk. -/
def freshCount (ops : List PendingOperation) (vis : List String) : Nat :=
  ((ops.map (·.id)).filter (fun i => !vis.contains i)).length

theorem freshCount_cons_lt (ops : List PendingOperation) (vis : List String)
    (a : String) (ha : a ∈ ops.map (·.id)) (hvis : vis.contains a = false) :
    freshCount ops (a :: vis) < freshCount ops vis := by
  unfold freshCount
  refine length_filter_lt_of_witness _ _ _ ?_ a ha ?_ ?_
  · intro x hx
    simp only [Bool.not_eq_true'] at hx ⊢
    simp only [List.contains_cons, Bool.or_eq_false_iff] at hx
    exact hx.2
  · simp only [Bool.not_eq_true']
    exact hvis
  · simp [List.contains_cons]

theorem freshCount_le (ops : List PendingOperation) (vis : List String) :
    freshCount ops vis ≤ ops.length := by
  calc freshCount ops vis ≤ (ops.map (·.id)).length := List.length_filter_le _ _
  _ = ops.length := List.length_map _ _

/-- Main invariant of the recursive `visit`: the walk only appends to
`result`, keeps `visited` equal to the ids of `result` together with the
current recursion stack `S`, keeps the ids of `result` duplicate-free, and
settles the visited operation (into `result`, unless it is an ancestor on the
stack). -/
theorem visitF_spec :
    ∀ (fuel : Nat) (ops : List PendingOperation) (o : PendingOperation)
      (res res' : List PendingOperation) (vis vis' S : List String),
    visitF fuel ops o (res, vis) = (res', vis') →
    freshCount ops vis < fuel →
    o ∈ ops →
    (∀ i, vis.contains i = true ↔ (i ∈ res.map (·.id) ∨ i ∈ S)) →
    (∀ x ∈ res, x ∈ ops) →
    (res.map (·.id)).Nodup →
    (ops.map (·.id)).Nodup →
    (∃ Δ, res' = res ++ Δ ∧ (∀ x ∈ Δ, x ∈ ops) ∧
      (∀ x ∈ Δ, vis.contains x.id = false)) ∧
    (∀ i, vis'.contains i = true ↔ (i ∈ res'.map (·.id) ∨ i ∈ S)) ∧
    (res'.map (·.id)).Nodup ∧
    (o ∈ res' ∨ o.id ∈ S) := by
  intro fuel
  induction fuel with
  | zero =>
    intro ops o res res' vis vis' S _ hfuel
    omega
  | succ fuel ih =>
    intro ops o res res' vis vis' S heq hfuel ho hvis hsub hnodup hops
    by_cases hcont : vis.contains o.id
    · rw [visitF, if_pos hcont, Prod.mk.injEq] at heq
      obtain ⟨h1, h2⟩ := heq
      subst h1; subst h2
      refine ⟨⟨[], by simp, by simp, by simp⟩, hvis, hnodup, ?_⟩
      rcases (hvis o.id).mp hcont with hin | hin
      · obtain ⟨x, hx, hxid⟩ := List.mem_map.mp hin
        exact Or.inl ((eq_of_nodup_ids hops (hsub x hx) ho hxid) ▸ hx)
      · exact Or.inr hin
    · have hfresh : vis.contains o.id = false := by simpa using hcont
      have hoid : o.id ∈ ops.map (·.id) := List.mem_map_of_mem (·.id) ho
      have hnotres : o ∉ res := fun hr =>
        hcont ((hvis o.id).mpr (Or.inl (List.mem_map_of_mem (·.id) hr)))
      have hvis1 : ∀ i, (o.id :: vis).contains i = true ↔
          (i ∈ res.map (·.id) ∨ i ∈ o.id :: S) := by
        intro i
        simp only [List.contains_cons, Bool.or_eq_true, beq_iff_eq, List.mem_cons]
        rw [hvis i]
        tauto
      -- the three ways the body can proceed
      rcases hdep : o.dependsOn with _ | d
      · rw [visitF, if_neg hcont, hdep, Prod.mk.injEq] at heq
        obtain ⟨h1, h2⟩ := heq
        subst h1; subst h2
        refine ⟨⟨[o], rfl, by simpa using ho, by simpa using hfresh⟩, ?_, ?_, ?_⟩
        · intro i
          rw [hvis1 i]
          simp only [List.map_append, List.map_cons, List.map_nil, List.mem_append,
            List.mem_cons, List.mem_singleton, List.not_mem_nil, or_false]
          tauto
        · have : o.id ∉ res.map (·.id) := fun hin =>
            hcont ((hvis o.id).mpr (Or.inl hin))
          simp [List.nodup_append, hnodup, this]
        · exact Or.inl (List.mem_append.mpr (Or.inr (List.mem_singleton.mpr rfl)))
      · rcases hfind : ops.find? (fun x => x.id == d) with _ | dep
        · rw [visitF] at heq
          simp only [hfresh, Bool.false_eq_true, if_false, hdep, hfind,
            Prod.mk.injEq] at heq
          obtain ⟨h1, h2⟩ := heq
          subst h1; subst h2
          refine ⟨⟨[o], rfl, by simpa using ho, by simpa using hfresh⟩, ?_, ?_, ?_⟩
          · intro i
            rw [hvis1 i]
            simp only [List.map_append, List.map_cons, List.map_nil, List.mem_append,
              List.mem_cons, List.mem_singleton, List.not_mem_nil, or_false]
            tauto
          · have : o.id ∉ res.map (·.id) := fun hin =>
              hcont ((hvis o.id).mpr (Or.inl hin))
            simp [List.nodup_append, hnodup, this]
          · exact Or.inl (List.mem_append.mpr (Or.inr (List.mem_singleton.mpr rfl)))
        · -- recursive visit of the dependency
          have hdepmem : dep ∈ ops := List.mem_of_find?_eq_some hfind
          rcases hrec : visitF fuel ops dep (res, o.id :: vis) with ⟨res1, vis2⟩
          rw [visitF] at heq
          simp only [hfresh, Bool.false_eq_true, if_false, hdep, hfind] at heq
          rw [hrec] at heq
          simp only [Prod.mk.injEq] at heq
          obtain ⟨h1, h2⟩ := heq
          subst h1; subst h2
          have hfuel1 : freshCount ops (o.id :: vis) < fuel := by
            have := freshCount_cons_lt ops vis o.id hoid hfresh
            omega
          obtain ⟨⟨Δ1, hΔ1, hΔ1sub, hΔ1fresh⟩, hvis2, hnodup1, _⟩ :=
            ih ops dep res res1 (o.id :: vis) vis2 (o.id :: S) hrec hfuel1 hdepmem
              hvis1 hsub hnodup hops
          have hnotΔ1 : o ∉ Δ1 := fun hx => by
            have := hΔ1fresh o hx
            simp [List.contains_cons] at this
          have hoid_not_res1 : o.id ∉ res1.map (·.id) := by
            intro hin
            obtain ⟨x, hx, hxid⟩ := List.mem_map.mp hin
            rw [hΔ1] at hx
            rcases List.mem_append.mp hx with hx' | hx'
            · exact hcont ((hvis o.id).mpr (Or.inl (hxid ▸ List.mem_map_of_mem (·.id) hx')))
            · have := hΔ1fresh x hx'
              simp [List.contains_cons, hxid] at this
          refine ⟨⟨Δ1 ++ [o], by rw [hΔ1, List.append_assoc], ?_, ?_⟩, ?_, ?_, ?_⟩
          · intro x hx
            rcases List.mem_append.mp hx with hx' | hx'
            · exact hΔ1sub x hx'
            · rwa [List.mem_singleton.mp hx']
          · intro x hx
            rcases List.mem_append.mp hx with hx' | hx'
            · have := hΔ1fresh x hx'
              simp only [List.contains_cons, Bool.or_eq_false_iff] at this
              exact this.2
            · rw [List.mem_singleton.mp hx']
              exact hfresh
          · intro i
            rw [hvis2 i]
            simp only [List.map_append, List.map_cons, List.map_nil, List.mem_append,
              List.mem_cons, List.mem_singleton, List.not_mem_nil, or_false]
            tauto
          · simp only [List.map_append, List.map_cons, List.map_nil]
            rw [List.nodup_append]
            refine ⟨hnodup1, List.nodup_singleton _, ?_⟩
            intro a ha
            simp only [List.mem_cons, List.not_mem_nil, or_false]
            intro hcon
            exact hoid_not_res1 (hcon ▸ ha)
          · exact Or.inl (List.mem_append.mpr (Or.inr (List.mem_singleton.mpr rfl)))

theorem rankedB_edge {r : String → Nat} {ops : List PendingOperation}
    (h : rankedB r ops = true) {x dep : PendingOperation} (hx : x ∈ ops)
    (hdep : depOf ops x = some dep) : r dep.id < r x.id := by
  have hall := (List.all_eq_true.mp h) x hx
  rw [hdep] at hall
  simpa using hall

/-- Appending an element preserves the topological invariant on the existing
part of the list. -/
theorem TopoInvP.append_one {ops res : List PendingOperation}
    (h : TopoInvP ops res) (o : PendingOperation) {x : PendingOperation}
    (hx : x ∈ res) {dep : PendingOperation} (hdep : depOf ops x = some dep) :
    (res ++ [o]).indexOf dep < (res ++ [o]).indexOf x := by
  have hlt := h x hx dep hdep
  have hxlt : res.indexOf x < res.length := List.indexOf_lt_length.mpr hx
  have hdmem : dep ∈ res := List.indexOf_lt_length.mp (hlt.trans hxlt)
  rw [List.indexOf_append_of_mem hdmem, List.indexOf_append_of_mem hx]
  exact hlt

/-- With a rank function certifying acyclicity, the walk settles the visited
operation into the result and preserves the topological ordering of the
result. -/
theorem visitF_topo :
    ∀ (fuel : Nat) (ops : List PendingOperation) (o : PendingOperation)
      (res res' : List PendingOperation) (vis vis' S : List String) (r : String → Nat),
    visitF fuel ops o (res, vis) = (res', vis') →
    freshCount ops vis < fuel →
    o ∈ ops →
    (∀ i, vis.contains i = true ↔ (i ∈ res.map (·.id) ∨ i ∈ S)) →
    (∀ x ∈ res, x ∈ ops) →
    (res.map (·.id)).Nodup →
    (ops.map (·.id)).Nodup →
    rankedB r ops = true →
    (∀ s ∈ S, r o.id < r s) →
    TopoInvP ops res →
    TopoInvP ops res' ∧ o ∈ res' := by
  intro fuel
  induction fuel with
  | zero =>
    intro ops o res res' vis vis' S r _ hfuel
    omega
  | succ fuel ih =>
    intro ops o res res' vis vis' S r heq hfuel ho hvis hsub hnodup hops hr hS htopo
    by_cases hcont : vis.contains o.id
    · rw [visitF, if_pos hcont, Prod.mk.injEq] at heq
      obtain ⟨h1, h2⟩ := heq
      subst h1; subst h2
      refine ⟨htopo, ?_⟩
      rcases (hvis o.id).mp hcont with hin | hin
      · obtain ⟨x, hx, hxid⟩ := List.mem_map.mp hin
        exact (eq_of_nodup_ids hops (hsub x hx) ho hxid) ▸ hx
      · exact absurd (hS o.id hin) (lt_irrefl _)
    · have hfresh : vis.contains o.id = false := by simpa using hcont
      have hoid : o.id ∈ ops.map (·.id) := List.mem_map_of_mem (·.id) ho
      have hvis1 : ∀ i, (o.id :: vis).contains i = true ↔
          (i ∈ res.map (·.id) ∨ i ∈ o.id :: S) := by
        intro i
        simp only [List.contains_cons, Bool.or_eq_true, beq_iff_eq, List.mem_cons]
        rw [hvis i]
        tauto
      rcases hdep : o.dependsOn with _ | d
      · rw [visitF, if_neg hcont, hdep, Prod.mk.injEq] at heq
        obtain ⟨h1, h2⟩ := heq
        subst h1; subst h2
        refine ⟨?_, List.mem_append.mpr (Or.inr (List.mem_singleton.mpr rfl))⟩
        intro x hx dep' hdep'
        rcases List.mem_append.mp hx with hx' | hx'
        · exact htopo.append_one o hx' hdep'
        · rw [List.mem_singleton.mp hx'] at hdep'
          simp only [depOf, hdep] at hdep'
          cases hdep'
      · rcases hfind : ops.find? (fun x => x.id == d) with _ | dep
        · rw [visitF] at heq
          simp only [hfresh, Bool.false_eq_true, if_false, hdep, hfind,
            Prod.mk.injEq] at heq
          obtain ⟨h1, h2⟩ := heq
          subst h1; subst h2
          refine ⟨?_, List.mem_append.mpr (Or.inr (List.mem_singleton.mpr rfl))⟩
          intro x hx dep' hdep'
          rcases List.mem_append.mp hx with hx' | hx'
          · exact htopo.append_one o hx' hdep'
          · rw [List.mem_singleton.mp hx'] at hdep'
            simp only [depOf, hdep, hfind] at hdep'
            cases hdep'
        · have hdepmem : dep ∈ ops := List.mem_of_find?_eq_some hfind
          have hedge : depOf ops o = some dep := by
            simp only [depOf, hdep, hfind]
          have hrdep : r dep.id < r o.id := rankedB_edge hr ho hedge
          rcases hrec : visitF fuel ops dep (res, o.id :: vis) with ⟨res1, vis2⟩
          rw [visitF] at heq
          simp only [hfresh, Bool.false_eq_true, if_false, hdep, hfind] at heq
          rw [hrec] at heq
          simp only [Prod.mk.injEq] at heq
          obtain ⟨h1, h2⟩ := heq
          subst h1; subst h2
          have hfuel1 : freshCount ops (o.id :: vis) < fuel := by
            have := freshCount_cons_lt ops vis o.id hoid hfresh
            omega
          have hS1 : ∀ s ∈ o.id :: S, r dep.id < r s := by
            intro s hs
            rcases List.mem_cons.mp hs with rfl | hs'
            · exact hrdep
            · exact hrdep.trans (hS s hs')
          obtain ⟨⟨Δ1, hΔ1, _, hΔ1fresh⟩, _, _, _⟩ :=
            visitF_spec fuel ops dep res res1 (o.id :: vis) vis2 (o.id :: S) hrec
              hfuel1 hdepmem hvis1 hsub hnodup hops
          obtain ⟨htopo1, hdepres1⟩ :=
            ih ops dep res res1 (o.id :: vis) vis2 (o.id :: S) r hrec hfuel1 hdepmem
              hvis1 hsub hnodup hops hr hS1 htopo
          have honotres1 : o ∉ res1 := by
            intro hin
            rw [hΔ1] at hin
            rcases List.mem_append.mp hin with hin' | hin'
            · exact hcont ((hvis o.id).mpr (Or.inl (List.mem_map_of_mem (·.id) hin')))
            · have := hΔ1fresh o hin'
              simp [List.contains_cons] at this
          refine ⟨?_, List.mem_append.mpr (Or.inr (List.mem_singleton.mpr rfl))⟩
          intro x hx dep' hdep'
          rcases List.mem_append.mp hx with hx' | hx'
          · exact htopo1.append_one o hx' hdep'
          · rw [List.mem_singleton.mp hx'] at hdep' ⊢
            rw [hedge] at hdep'
            injection hdep' with h
            subst h
            rw [List.indexOf_append_of_mem hdepres1,
              List.indexOf_append_of_not_mem honotres1]
            have : res1.indexOf dep < res1.length := List.indexOf_lt_length.mpr hdepres1
            simpa using this

/-- Invariants of the top-level `for (const op of operations) visit(op)` loop. -/
theorem foldVisit_spec :
    ∀ (todo res : List PendingOperation) (vis : List String)
      (ops res' : List PendingOperation) (vis' : List String),
    todo.foldl (fun acc o => visitF (ops.length + 1) ops o acc) (res, vis) = (res', vis') →
    (∀ o ∈ todo, o ∈ ops) →
    (∀ i, vis.contains i = true ↔ i ∈ res.map (·.id)) →
    (∀ x ∈ res, x ∈ ops) →
    (res.map (·.id)).Nodup →
    (ops.map (·.id)).Nodup →
    (∃ Δ, res' = res ++ Δ) ∧
    (∀ i, vis'.contains i = true ↔ i ∈ res'.map (·.id)) ∧
    (∀ x ∈ res', x ∈ ops) ∧
    (res'.map (·.id)).Nodup ∧
    (∀ o ∈ todo, o ∈ res') := by
  intro todo
  induction todo with
  | nil =>
    intro res vis ops res' vis' heq _ hvis hsub hnodup _
    simp only [List.foldl_nil, Prod.mk.injEq] at heq
    obtain ⟨h1, h2⟩ := heq
    subst h1; subst h2
    exact ⟨⟨[], by simp⟩, hvis, hsub, hnodup, by simp⟩
  | cons o rest ih =>
    intro res vis ops res' vis' heq htodo hvis hsub hnodup hops
    rcases hstep : visitF (ops.length + 1) ops o (res, vis) with ⟨res1, vis2⟩
    rw [List.foldl_cons, hstep] at heq
    have ho : o ∈ ops := htodo o (List.mem_cons_self o rest)
    have hfuel : freshCount ops vis < ops.length + 1 :=
      Nat.lt_succ_of_le (freshCount_le ops vis)
    have hvis0 : ∀ i, vis.contains i = true ↔
        (i ∈ res.map (·.id) ∨ i ∈ ([] : List String)) := by
      intro i
      rw [hvis i]
      simp
    obtain ⟨⟨Δ1, hΔ1, hΔ1sub, _⟩, hvis2, hnodup1, homem⟩ :=
      visitF_spec (ops.length + 1) ops o res res1 vis vis2 [] hstep hfuel ho hvis0
        hsub hnodup hops
    have homem1 : o ∈ res1 := by
      rcases homem with h | h
      · exact h
      · cases h
    have hvis2' : ∀ i, vis2.contains i = true ↔ i ∈ res1.map (·.id) := by
      intro i
      rw [hvis2 i]
      simp
    have hsub1 : ∀ x ∈ res1, x ∈ ops := by
      intro x hx
      rw [hΔ1] at hx
      rcases List.mem_append.mp hx with hx' | hx'
      · exact hsub x hx'
      · exact hΔ1sub x hx'
    obtain ⟨⟨Δ2, hΔ2⟩, hv', hs', hn', hm'⟩ :=
      ih res1 vis2 ops res' vis' heq (fun x hx => htodo x (List.mem_cons_of_mem o hx))
        hvis2' hsub1 hnodup1 hops
    refine ⟨⟨Δ1 ++ Δ2, by rw [hΔ2, hΔ1, List.append_assoc]⟩, hv', hs', hn', ?_⟩
    intro x hx
    rcases List.mem_cons.mp hx with rfl | hx'
    · rw [hΔ2]
      exact List.mem_append.mpr (Or.inl homem1)
    · exact hm' x hx'

/-- Topological-order invariant of the top-level loop, given a rank function
certifying acyclicity. -/
theorem foldVisit_topo :
    ∀ (todo res : List PendingOperation) (vis : List String)
      (ops res' : List PendingOperation) (vis' : List String) (r : String → Nat),
    todo.foldl (fun acc o => visitF (ops.length + 1) ops o acc) (res, vis) = (res', vis') →
    (∀ o ∈ todo, o ∈ ops) →
    (∀ i, vis.contains i = true ↔ i ∈ res.map (·.id)) →
    (∀ x ∈ res, x ∈ ops) →
    (res.map (·.id)).Nodup →
    (ops.map (·.id)).Nodup →
    rankedB r ops = true →
    TopoInvP ops res →
    TopoInvP ops res' := by
  intro todo
  induction todo with
  | nil =>
    intro res vis ops res' vis' r heq _ _ _ _ _ _ htopo
    simp only [List.foldl_nil, Prod.mk.injEq] at heq
    obtain ⟨h1, h2⟩ := heq
    subst h1
    exact htopo
  | cons o rest ih =>
    intro res vis ops res' vis' r heq htodo hvis hsub hnodup hops hr htopo
    rcases hstep : visitF (ops.length + 1) ops o (res, vis) with ⟨res1, vis2⟩
    rw [List.foldl_cons, hstep] at heq
    have ho : o ∈ ops := htodo o (List.mem_cons_self o rest)
    have hfuel : freshCount ops vis < ops.length + 1 :=
      Nat.lt_succ_of_le (freshCount_le ops vis)
    have hvis0 : ∀ i, vis.contains i = true ↔
        (i ∈ res.map (·.id) ∨ i ∈ ([] : List String)) := by
      intro i
      rw [hvis i]
      simp
    obtain ⟨⟨Δ1, hΔ1, hΔ1sub, _⟩, hvis2, hnodup1, _⟩ :=
      visitF_spec (ops.length + 1) ops o res res1 vis vis2 [] hstep hfuel ho hvis0
        hsub hnodup hops
    obtain ⟨htopo1, _⟩ :=
      visitF_topo (ops.length + 1) ops o res res1 vis vis2 [] r hstep hfuel ho hvis0
        hsub hnodup hops hr (by intro s hs; cases hs) htopo
    have hvis2' : ∀ i, vis2.contains i = true ↔ i ∈ res1.map (·.id) := by
      intro i
      rw [hvis2 i]
      simp
    have hsub1 : ∀ x ∈ res1, x ∈ ops := by
      intro x hx
      rw [hΔ1] at hx
      rcases List.mem_append.mp hx with hx' | hx'
      · exact hsub x hx'
      · exact hΔ1sub x hx'
    exact ih res1 vis2 ops res' vis' r heq
      (fun x hx => htodo x (List.mem_cons_of_mem o hx)) hvis2' hsub1 hnodup1 hops hr htopo1

/-- Structural facts about `sortByDependencies` on a duplicate-free store:
output elements come from the input, output ids stay duplicate-free, and
every input operation appears in the output. -/
theorem sortByDependencies_spec (ops : List PendingOperation)
    (hops : (ops.map (·.id)).Nodup) :
    (∀ x ∈ sortByDependencies ops, x ∈ ops) ∧
    ((sortByDependencies ops).map (·.id)).Nodup ∧
    (∀ o ∈ ops, o ∈ sortByDependencies ops) := by
  rcases h : ops.foldl (fun acc o => visitF (ops.length + 1) ops o acc) ([], []) with ⟨res', vis'⟩
  have hout : sortByDependencies ops = res' := by
    unfold sortByDependencies
    rw [h]
  obtain ⟨_, _, hs, hn, hm⟩ :=
    foldVisit_spec ops [] [] ops res' vis' h (fun _ ho => ho) (by simp) (by simp)
      (by simp) hops
  rw [hout]
  exact ⟨hs, hn, hm⟩

/-- `sortByDependencies` permutes its input when ids are duplicate-free. -/
theorem sortByDependencies_perm (ops : List PendingOperation)
    (hops : (ops.map (·.id)).Nodup) :
    (sortByDependencies ops).Perm ops := by
  obtain ⟨hs, hn, hm⟩ := sortByDependencies_spec ops hops
  have h1 : (sortByDependencies ops).Nodup := List.Nodup.of_map _ hn
  have h2 : ops.Nodup := List.Nodup.of_map _ hops
  refine List.perm_of_nodup_nodup_toFinset_eq h1 h2 ?_
  ext a
  simp only [List.mem_toFinset]
  exact ⟨fun ha => hs a ha, fun ha => hm a ha⟩

/-- `sortByDependencies` orders each operation after its in-list dependency,
given a rank function certifying acyclicity. -/
theorem sortByDependencies_topo (ops : List PendingOperation)
    (hops : (ops.map (·.id)).Nodup) (r : String → Nat) (hr : rankedB r ops = true) :
    TopoInvP ops (sortByDependencies ops) := by
  rcases h : ops.foldl (fun acc o => visitF (ops.length + 1) ops o acc) ([], []) with ⟨res', vis'⟩
  have hout : sortByDependencies ops = res' := by
    unfold sortByDependencies
    rw [h]
  rw [hout]
  exact foldVisit_topo ops [] [] ops res' vis' r h (fun _ ho => ho) (by simp) (by simp)
    (by simp) hops hr (by intro x hx; cases hx)

/-! ## Execution engine lemmas -/

/-- The mirrored-registry side effects never touch the operations queue. -/
theorem applyOperationEffect_operations (op : PendingOperation)
    (st : MockConnectorStateData) :
    (applyOperationEffect op st).operations = st.operations := by
  unfold applyOperationEffect
  cases op.type <;> (repeat' (first | split | dsimp only []))

theorem setOpResult_map_id (st : MockConnectorStateData) (id : String)
    (r : OperationResult) (s : OperationStatus) :
    (setOpResult st id r s).operations.map (·.id) = st.operations.map (·.id) :=
  updateOpFirst_map_id _ _ _ (fun _ => rfl)

theorem findOp_setOpResult_eq (st : MockConnectorStateData) (id : String)
    (r : OperationResult) (s : OperationStatus) :
    findOp (setOpResult st id r s) id =
      (findOp st id).map (fun o => { o with status := s, result := some r }) :=
  find?_updateOpFirst_eq _ _ _ (fun _ => rfl)

theorem findOp_setOpResult_ne (st : MockConnectorStateData) (id j : String)
    (r : OperationResult) (s : OperationStatus) (h : j ≠ id) :
    findOp (setOpResult st id r s) j = findOp st j :=
  find?_updateOpFirst_ne _ _ _ _ (fun _ => rfl) h

/-- With duplicate-free ids, `find` returns a member itself. -/
theorem find?_self_of_nodup_ids {l : List PendingOperation}
    (hnd : (l.map (·.id)).Nodup) {op : PendingOperation} (hop : op ∈ l) :
    l.find? (fun o => o.id == op.id) = some op := by
  induction l with
  | nil => cases hop
  | cons a rest ih =>
    rcases List.mem_cons.mp hop with rfl | hmem
    · exact List.find?_cons_of_pos _ (by simp)
    · simp only [List.map_cons, List.nodup_cons] at hnd
      have hane : ((fun o => o.id == op.id) a) = false := by
        simp only [beq_eq_false_iff_ne, ne_eq]
        intro he
        exact hnd.1 (he ▸ List.mem_map_of_mem (·.id) hmem)
      rw [List.find?_cons_of_neg _ (by simp_all)]
      exact ih hnd.2 hmem

theorem findOp_self {st : MockConnectorStateData}
    (hnd : (st.operations.map (·.id)).Nodup) {op : PendingOperation}
    (hop : op ∈ st.operations) : findOp st op.id = some op :=
  find?_self_of_nodup_ids hnd hop

theorem findOp_congr {st st' : MockConnectorStateData}
    (h : st'.operations = st.operations) (j : String) : findOp st' j = findOp st j := by
  unfold findOp
  rw [h]

/-- The engine loop never renames, adds or removes operations. -/
theorem execLoop_map_id (opts : ExecuteOptions) :
    ∀ (l : List PendingOperation) (st : MockConnectorStateData)
      (acc : List OperationResult),
    (execLoop opts l st acc).1.operations.map (·.id) = st.operations.map (·.id) := by
  intro l
  induction l with
  | nil => intro st acc; rfl
  | cons op rest ih =>
    intro st acc
    rw [execLoop]
    split
    · exact ih st acc
    · split
      · dsimp only
        split
        · exact setOpResult_map_id st op.id _ _
        · rw [ih, setOpResult_map_id]
      · dsimp only
        rw [ih]
        have h := applyOperationEffect_operations op
          (setOpResult st op.id (mockSuccessResult op) .completed)
        rw [h, setOpResult_map_id]

/-- Operations whose id is not processed by the loop are untouched. -/
theorem execLoop_untouched (opts : ExecuteOptions) :
    ∀ (l : List PendingOperation) (st : MockConnectorStateData)
      (acc : List OperationResult) (j : String),
    (∀ o ∈ l, o.id ≠ j) →
    findOp (execLoop opts l st acc).1 j = findOp st j := by
  intro l
  induction l with
  | nil => intro st acc j _; rfl
  | cons op rest ih =>
    intro st acc j hne
    have hopj : j ≠ op.id := fun h => hne op (List.mem_cons_self op rest) h.symm
    have hrest : ∀ o ∈ rest, o.id ≠ j := fun o ho => hne o (List.mem_cons_of_mem op ho)
    rw [execLoop]
    split
    · exact ih st acc j hrest
    · split
      · dsimp only
        split
        · exact findOp_setOpResult_ne st op.id j _ _ hopj
        · rw [ih _ _ _ hrest, findOp_setOpResult_ne st op.id j _ _ hopj]
      · dsimp only
        rw [ih _ _ _ hrest,
          findOp_congr (applyOperationEffect_operations op _) j,
          findOp_setOpResult_ne st op.id j _ _ hopj]

/-- Entry side-conditions of the engine loop: the snapshots alias the store
and are `approved`, with duplicate-free ids. -/
def LoopInv (st : MockConnectorStateData) (l : List PendingOperation) : Prop :=
  (∀ o ∈ l, findOp st o.id = some o ∧ o.status = .approved) ∧ (l.map (·.id)).Nodup

theorem LoopInv.tail_of_step {st : MockConnectorStateData} {op : PendingOperation}
    {rest : List PendingOperation} (h : LoopInv st (op :: rest))
    (st' : MockConnectorStateData)
    (hpres : ∀ j, j ≠ op.id → findOp st' j = findOp st j) :
    LoopInv st' rest := by
  obtain ⟨hl, hnd⟩ := h
  simp only [List.map_cons, List.nodup_cons] at hnd
  refine ⟨?_, hnd.2⟩
  intro o ho
  obtain ⟨h1, h2⟩ := hl o (List.mem_cons_of_mem op ho)
  have hne : o.id ≠ op.id := by
    intro he
    exact hnd.1 (he ▸ List.mem_map_of_mem (·.id) ho)
  rw [hpres o.id hne]
  exact ⟨h1, h2⟩

theorem LoopInv.tail {st : MockConnectorStateData} {op : PendingOperation}
    {rest : List PendingOperation} (h : LoopInv st (op :: rest)) :
    LoopInv st rest :=
  h.tail_of_step st (fun _ _ => rfl)

/-- A completed operation survives the remainder of a pass unchanged. -/
theorem execLoop_completed_stable (opts : ExecuteOptions) :
    ∀ (l : List PendingOperation) (st : MockConnectorStateData)
      (acc : List OperationResult) (j : String) (x : PendingOperation),
    LoopInv st l →
    findOp st j = some x → x.status = .completed →
    findOp (execLoop opts l st acc).1 j = some x := by
  intro l
  induction l with
  | nil => intro st acc j x _ hx _; exact hx
  | cons op rest ih =>
    intro st acc j x hinv hx hxc
    obtain ⟨hopfind, hopapp⟩ := hinv.1 op (List.mem_cons_self op rest)
    have hopj : j ≠ op.id := by
      intro h
      rw [h, hopfind] at hx
      injection hx with hx'
      rw [← hx', hopapp] at hxc
      cases hxc
    rw [execLoop]
    split
    · exact ih st acc j x hinv.tail hx hxc
    · split
      · have hst' : ∀ (r : OperationResult) (s : OperationStatus),
            findOp (setOpResult st op.id r s) j = some x := by
          intro r s
          rw [findOp_setOpResult_ne st op.id j _ _ hopj]
          exact hx
        dsimp only
        split
        · exact hst' _ _
        · exact ih _ _ j x
            (hinv.tail_of_step _ (fun i hi => findOp_setOpResult_ne st op.id i _ _ hi))
            (hst' _ _) hxc
      · dsimp only
        refine ih _ _ j x
          (hinv.tail_of_step _ ?_)
          ?_ hxc
        · intro i hi
          rw [findOp_congr (applyOperationEffect_operations op _) i,
            findOp_setOpResult_ne st op.id i _ _ hi]
        · rw [findOp_congr (applyOperationEffect_operations op _) j,
            findOp_setOpResult_ne st op.id j _ _ hopj]
          exact hx

/-- How one engine pass may change an operation: either it is untouched, or it
was `approved` and is now resolved (`completed` or `failed`) with a recorded
result. -/
def ExecStep (st₀ st : MockConnectorStateData) : Prop :=
  ∀ j, findOp st j = findOp st₀ j ∨
    ∃ x r' s', findOp st₀ j = some x ∧ x.status = .approved ∧
      findOp st j = some { x with status := s', result := some r' } ∧
      (s' = .completed ∨ s' = .failed)

theorem ExecStep.refl {st : MockConnectorStateData} : ExecStep st st :=
  fun _ => Or.inl (Eq.refl _)

theorem ExecStep.trans {st₀ st₁ st₂ : MockConnectorStateData}
    (h01 : ExecStep st₀ st₁) (h12 : ExecStep st₁ st₂) : ExecStep st₀ st₂ := by
  intro j
  rcases h12 j with h | ⟨x, r', s', hfind1, happ, hfind2, hs⟩
  · rw [h]
    exact h01 j
  · rcases h01 j with h | ⟨y, ry, sy, hfind0, happ0, hfind1', hsy⟩
    · rw [h] at hfind1
      exact Or.inr ⟨x, r', s', hfind1, happ, hfind2, hs⟩
    · rw [hfind1'] at hfind1
      injection hfind1 with hx
      rw [← hx] at happ
      simp only at happ
      rcases hsy with h' | h' <;> rw [h'] at happ <;> cases happ

/-- One processed snapshot yields an `ExecStep` from the store to the updated
store. -/
theorem ExecStep.ofSet {st : MockConnectorStateData} {op : PendingOperation}
    (hfind : findOp st op.id = some op) (happ : op.status = .approved)
    (r : OperationResult) {s : OperationStatus}
    (hs : s = .completed ∨ s = .failed) :
    ExecStep st (setOpResult st op.id r s) := by
  intro j
  by_cases hj : j = op.id
  · subst hj
    refine Or.inr ⟨op, r, s, hfind, happ, ?_, hs⟩
    rw [findOp_setOpResult_eq, hfind]
    rfl
  · exact Or.inl (findOp_setOpResult_ne st op.id j _ _ hj)

/-- `findOp` is invariant under the mirrored-registry side effects. -/
theorem findOp_applyOperationEffect (op : PendingOperation)
    (st : MockConnectorStateData) (j : String) :
    findOp (applyOperationEffect op st) j = findOp st j :=
  findOp_congr (applyOperationEffect_operations op st) j

/-- The engine loop only moves `approved` operations to `completed`/`failed`,
leaving everything else untouched. -/
theorem execLoop_execStep (opts : ExecuteOptions) :
    ∀ (l : List PendingOperation) (st : MockConnectorStateData)
      (acc : List OperationResult),
    LoopInv st l →
    ExecStep st (execLoop opts l st acc).1 := by
  intro l
  induction l with
  | nil => intro st acc _; exact ExecStep.refl
  | cons op rest ih =>
    intro st acc hinv
    obtain ⟨hopfind, hopapp⟩ := hinv.1 op (List.mem_cons_self op rest)
    rw [execLoop]
    split
    · exact ih st acc hinv.tail
    · rcases hcfg : getKey opts.results op.id with _ | cfg
      · simp only [hcfg]
        have hstep : ExecStep st (setOpResult st op.id (mockSuccessResult op) .completed) :=
          ExecStep.ofSet hopfind hopapp _ (Or.inl (Eq.refl _))
        have hstep2 : ExecStep st (applyOperationEffect op
            (setOpResult st op.id (mockSuccessResult op) .completed)) := by
          intro j
          rw [findOp_applyOperationEffect]
          exact hstep j
        refine hstep2.trans (ih _ _ ?_)
        refine hinv.tail_of_step _ (fun i hi => ?_)
        rw [findOp_applyOperationEffect, findOp_setOpResult_ne st op.id i _ _ hi]
      · simp only [hcfg]
        have hstep : ExecStep st (setOpResult st op.id cfg.toResult
            (if cfg.toResult.exitCode = 0 then .completed else .failed)) :=
          ExecStep.ofSet hopfind hopapp _ (by split <;> simp)
        split
        · exact hstep
        · refine hstep.trans (ih _ _ ?_)
          exact hinv.tail_of_step _ (fun i hi => findOp_setOpResult_ne st op.id i _ _ hi)

/-- The loop entry conditions hold for the dependency-sorted approved
snapshot of a duplicate-free store. -/
theorem executeOperations_loopInv (st : MockConnectorStateData)
    (hnd : (st.operations.map (·.id)).Nodup) :
    LoopInv st (sortByDependencies (st.operations.filter (fun op => op.status = .approved))) := by
  have hfilsub : List.Sublist
      ((st.operations.filter (fun op => op.status = .approved)).map (·.id))
      (st.operations.map (·.id)) :=
    List.Sublist.map _ (List.filter_sublist _)
  have hfil : ((st.operations.filter (fun op => op.status = .approved)).map (·.id)).Nodup :=
    hnd.sublist hfilsub
  obtain ⟨hs, hn, _⟩ := sortByDependencies_spec _ hfil
  constructor
  · intro o ho
    have hmem := hs o ho
    have h2 := List.mem_filter.mp hmem
    refine ⟨findOp_self hnd h2.1, ?_⟩
    simpa using h2.2
  · exact hn

/-- A dependency that is absent or unresolved at the end of the pass was so
throughout the pass: the operation that waits on it is skipped and survives
entirely unchanged. -/
theorem execLoop_skip (opts : ExecuteOptions) :
    ∀ (l : List PendingOperation) (st : MockConnectorStateData)
      (acc : List OperationResult) (op : PendingOperation) (X : String),
    LoopInv st l →
    op.dependsOn = some X →
    findOp st op.id = some op →
    (∀ y, findOp (execLoop opts l st acc).1 X = some y → y.status ≠ .completed) →
    findOp (execLoop opts l st acc).1 op.id = some op := by
  intro l
  induction l with
  | nil => intro st acc op X _ _ hop _; exact hop
  | cons o rest ih =>
    intro st acc op X hinv hdep hop hX
    obtain ⟨hofind, hoapp⟩ := hinv.1 o (List.mem_cons_self o rest)
    by_cases hoop : o.id = op.id
    · -- the head is the waiting operation itself: its dependency check fails
      have hoeq : o = op := by
        rw [hoop] at hofind
        rw [hop] at hofind
        injection hofind with h
        exact h.symm
      subst hoeq
      have hnotcomp : ∀ depv, st.operations.find? (fun x => x.id == X) = some depv →
          depv.status ≠ .completed := by
        intro depv hdx hdc
        exact (hX depv (execLoop_completed_stable opts (o :: rest) st acc X depv hinv hdx hdc)) hdc
      rw [execLoop] at hX ⊢
      split at hX
      · rename_i hskip
        rw [if_pos hskip]
        exact ih st acc o X hinv.tail hdep hop hX
      · rename_i hrun
        exfalso
        apply hrun
        rcases hdx : st.operations.find? (fun x => x.id == X) with _ | depv
        · simp [hdep, hdx]
        · simp [hdep, hdx, hnotcomp depv hdx]
    · -- another operation is processed first: it cannot touch `op`
      have hpres : ∀ (st' : MockConnectorStateData),
          (∀ i, i ≠ o.id → findOp st' i = findOp st i) → findOp st' op.id = some op := by
        intro st' hp
        rw [hp op.id (fun h => hoop h.symm)]
        exact hop
      rw [execLoop] at hX ⊢
      split at hX
      · rename_i hskip
        rw [if_pos hskip]
        exact ih st acc op X hinv.tail hdep hop hX
      · rename_i hrun
        rw [if_neg hrun]
        rcases hcfg : getKey opts.results o.id with _ | cfg
        · simp only [hcfg] at hX ⊢
          refine ih _ _ op X ?_ hdep ?_ hX
          · refine hinv.tail_of_step _ (fun i hi => ?_)
            rw [findOp_applyOperationEffect, findOp_setOpResult_ne st o.id i _ _ hi]
          · rw [findOp_applyOperationEffect, findOp_setOpResult_ne st o.id op.id _ _
              (fun h => hoop h.symm)]
            exact hop
        · simp only [hcfg] at hX ⊢
          split at hX
          · rename_i hhalt
            rw [if_pos hhalt]
            exact hpres _ (fun i hi => findOp_setOpResult_ne st o.id i _ _ hi)
          · rename_i hhalt
            rw [if_neg hhalt]
            refine ih _ _ op X ?_ hdep ?_ hX
            · exact hinv.tail_of_step _ (fun i hi => findOp_setOpResult_ne st o.id i _ _ hi)
            · rw [findOp_setOpResult_ne st o.id op.id _ _ (fun h => hoop h.symm)]
              exact hop

/-- `executeOperations` is the loop run on the dependency-sorted approved
snapshot. -/
theorem executeOperations_eq (opts : ExecuteOptions) (st : MockConnectorStateData) :
    executeOperations opts st =
      execLoop opts (sortByDependencies (st.operations.filter
        (fun op => op.status = .approved))) st [] := rfl

theorem executeOperations_map_id (opts : ExecuteOptions) (st : MockConnectorStateData) :
    (executeOperations opts st).1.operations.map (·.id) = st.operations.map (·.id) := by
  rw [executeOperations_eq]
  exact execLoop_map_id opts _ st []

theorem executeOperations_execStep (opts : ExecuteOptions) (st : MockConnectorStateData)
    (hnd : (st.operations.map (·.id)).Nodup) :
    ExecStep st (executeOperations opts st).1 := by
  rw [executeOperations_eq]
  exact execLoop_execStep opts _ st [] (executeOperations_loopInv st hnd)

theorem executeOperations_completed_stable (opts : ExecuteOptions)
    (st : MockConnectorStateData) (hnd : (st.operations.map (·.id)).Nodup)
    {j : String} {x : PendingOperation} (hx : findOp st j = some x)
    (hc : x.status = .completed) :
    findOp (executeOperations opts st).1 j = some x := by
  rw [executeOperations_eq]
  exact execLoop_completed_stable opts _ st [] j x (executeOperations_loopInv st hnd) hx hc

theorem executeOperations_skip (opts : ExecuteOptions) (st : MockConnectorStateData)
    (hnd : (st.operations.map (·.id)).Nodup) {op : PendingOperation} {X : String}
    (hdep : op.dependsOn = some X) (hop : findOp st op.id = some op)
    (hX : ∀ y, findOp (executeOperations opts st).1 X = some y → y.status ≠ .completed) :
    findOp (executeOperations opts st).1 op.id = some op := by
  rw [executeOperations_eq] at hX ⊢
  exact execLoop_skip opts _ st [] op X (executeOperations_loopInv st hnd) hdep hop hX

/-- Repeated `execute()` calls, as driven by the browser. -/
def execMany (calls : List ExecuteOptions) (st : MockConnectorStateData) :
    MockConnectorStateData :=
  calls.foldl (fun s c => (executeOperations c s).1) st

theorem execMany_cons (c : ExecuteOptions) (cs : List ExecuteOptions)
    (st : MockConnectorStateData) :
    execMany (c :: cs) st = execMany cs (executeOperations c st).1 := rfl

theorem execMany_map_id (calls : List ExecuteOptions) :
    ∀ (st : MockConnectorStateData),
    (execMany calls st).operations.map (·.id) = st.operations.map (·.id) := by
  induction calls with
  | nil => intro st; rfl
  | cons c cs ih =>
    intro st
    rw [execMany_cons, ih, executeOperations_map_id]

theorem execMany_completed_stable (calls : List ExecuteOptions) :
    ∀ (st : MockConnectorStateData), (st.operations.map (·.id)).Nodup →
    ∀ {j : String} {x : PendingOperation}, findOp st j = some x → x.status = .completed →
    findOp (execMany calls st) j = some x := by
  induction calls with
  | nil => intro st _ j x hx _; exact hx
  | cons c cs ih =>
    intro st hnd j x hx hc
    rw [execMany_cons]
    have hnd1 : ((executeOperations c st).1.operations.map (·.id)).Nodup := by
      rw [executeOperations_map_id]
      exact hnd
    exact ih _ hnd1 (executeOperations_completed_stable c st hnd hx hc) hc

/-- Across any number of `execute()` calls, an operation whose dependency is
still unresolved at the end was never touched. -/
theorem execMany_skip (calls : List ExecuteOptions) :
    ∀ (st : MockConnectorStateData), (st.operations.map (·.id)).Nodup →
    ∀ {op : PendingOperation} {X : String}, op.dependsOn = some X →
    findOp st op.id = some op →
    (∀ y, findOp (execMany calls st) X = some y → y.status ≠ .completed) →
    findOp (execMany calls st) op.id = some op := by
  induction calls with
  | nil => intro st _ op X _ hop _; exact hop
  | cons c cs ih =>
    intro st hnd op X hdep hop hX
    rw [execMany_cons] at hX ⊢
    have hnd1 : ((executeOperations c st).1.operations.map (·.id)).Nodup := by
      rw [executeOperations_map_id]
      exact hnd
    have hXmid : ∀ y, findOp (executeOperations c st).1 X = some y →
        y.status ≠ .completed := by
      intro y hy hyc
      exact (hX y (execMany_completed_stable cs _ hnd1 hy hyc)) hyc
    exact ih _ hnd1 hdep (executeOperations_skip c st hnd hdep hop hXmid) hX

/-- Truthiness of the `requiresOtp` flag forces `some true`. -/
theorem requiresOtp_truthy {o : Option Bool} (h : o.getD false = true) : o = some true := by
  cases o with
  | none => cases h
  | some b => cases b with
    | false => cases h
    | true => rfl

/-- Anatomy of an OTP halt: when a pass returns `otpRequired`, the processed
list splits around a trigger whose configured result demands OTP; the trigger
is resolved according to its configured exit code, every later snapshot is
untouched, every earlier snapshot is either skipped (untouched) or resolved
according to its recorded result, and the returned results end with the
trigger's result. -/
theorem execLoop_halt (opts : ExecuteOptions) :
    ∀ (l : List PendingOperation) (st : MockConnectorStateData)
      (acc : List OperationResult),
    LoopInv st l →
    (execLoop opts l st acc).2.otpRequired = some true →
    ∃ pre trig post cfg,
      l = pre ++ trig :: post ∧
      getKey opts.results trig.id = some cfg ∧
      cfg.requiresOtp = some true ∧
      otpTruthy opts.otp = false ∧
      (∃ x, findOp (execLoop opts l st acc).1 trig.id = some x ∧
        x.status = (if cfg.toResult.exitCode = 0 then .completed else .failed) ∧
        x.result = some cfg.toResult) ∧
      (∀ y ∈ post, findOp (execLoop opts l st acc).1 y.id = findOp st y.id) ∧
      (∀ y ∈ pre, ∀ x, findOp (execLoop opts l st acc).1 y.id = some x →
        (findOp st y.id = some x ∨
          ∃ r, x.result = some r ∧
            x.status = (if r.exitCode = 0 then .completed else .failed))) ∧
      (∃ mid, (execLoop opts l st acc).2.results = acc ++ mid ++ [cfg.toResult]) := by
  intro l
  induction l with
  | nil =>
    intro st acc _ hhalt
    cases hhalt
  | cons o rest ih =>
    intro st acc hinv hhalt
    obtain ⟨hofind, _⟩ := hinv.1 o (List.mem_cons_self o rest)
    have hoid_rest : ∀ y ∈ rest, y.id ≠ o.id := by
      intro y hy he
      have := hinv.2
      simp only [List.map_cons, List.nodup_cons] at this
      exact this.1 (he ▸ List.mem_map_of_mem (·.id) hy)
    rw [execLoop] at hhalt ⊢
    split at hhalt
    · rename_i hskip
      rw [if_pos hskip]
      obtain ⟨pre, trig, post, cfg, hsplit, hget, hotp, hotp2, htrig, hpost, hpre, hres⟩ :=
        ih st acc hinv.tail hhalt
      refine ⟨o :: pre, trig, post, cfg, by simp [hsplit], hget, hotp, hotp2, htrig,
        hpost, ?_, hres⟩
      intro y hy x hx
      rcases List.mem_cons.mp hy with rfl | hy'
      · left
        rw [← hx]
        exact (execLoop_untouched opts rest st acc y.id
          (fun z hz => hoid_rest z hz)).symm
      · exact hpre y hy' x hx
    · rename_i hrun
      rw [if_neg hrun]
      rcases hcfg : getKey opts.results o.id with _ | cfg
      · -- default success path, cannot itself halt
        simp only [hcfg] at hhalt ⊢
        obtain ⟨pre, trig, post, cfg', hsplit, hget, hotp, hotp2, htrig, hpost, hpre, hres⟩ :=
          ih _ _ (hinv.tail_of_step _ (fun i hi => by
            rw [findOp_applyOperationEffect, findOp_setOpResult_ne st o.id i _ _ hi])) hhalt
        refine ⟨o :: pre, trig, post, cfg', by simp [hsplit], hget, hotp, hotp2, htrig, ?_, ?_, ?_⟩
        · intro y hy
          have hyne : y.id ≠ o.id := hoid_rest y (by simp [hsplit, hy])
          rw [hpost y hy, findOp_applyOperationEffect,
            findOp_setOpResult_ne st o.id y.id _ _ hyne]
        · intro y hy x hx
          rcases List.mem_cons.mp hy with rfl | hy'
          · right
            have hyid : ∀ z ∈ pre ++ trig :: post, z.id ≠ y.id := by
              intro z hz
              exact hoid_rest z (hsplit ▸ hz)
            rw [hsplit] at hx
            rw [execLoop_untouched opts (pre ++ trig :: post) _ _ y.id
                (fun z hz => hyid z hz),
              findOp_applyOperationEffect, findOp_setOpResult_eq, hofind] at hx
            injection hx with hx'
            refine ⟨mockSuccessResult y, by rw [← hx'], ?_⟩
            rw [← hx']
            simp [mockSuccessResult]
          · have hyne : y.id ≠ o.id := hoid_rest y (by simp [hsplit, hy'])
            rcases hpre y hy' x hx with hL | hR
            · left
              rw [← hL, findOp_applyOperationEffect,
                findOp_setOpResult_ne st o.id y.id _ _ hyne]
            · exact Or.inr hR
        · obtain ⟨mid, hmid⟩ := hres
          exact ⟨mockSuccessResult o :: mid, by
            rw [hmid]
            simp⟩
      · simp only [hcfg] at hhalt ⊢
        split at hhalt
        · rename_i hhaltc
          rw [if_pos hhaltc]
          refine ⟨[], o, rest, cfg, rfl, hcfg, requiresOtp_truthy hhaltc.1, ?_, ?_, ?_, ?_, ?_⟩
          · have := hhaltc.2
            simpa using this
          · have hfound : findOp (setOpResult st o.id cfg.toResult
                (if cfg.toResult.exitCode = 0 then .completed else .failed)) o.id =
                some ((fun z => { z with
                  status := if cfg.toResult.exitCode = 0 then OperationStatus.completed
                    else OperationStatus.failed,
                  result := some cfg.toResult }) o) := by
              rw [findOp_setOpResult_eq, hofind]
              rfl
            exact ⟨_, hfound, rfl, rfl⟩
          · intro y hy
            exact findOp_setOpResult_ne st o.id y.id _ _ (hoid_rest y hy)
          · intro y hy
            cases hy
          · exact ⟨[], by simp⟩
        · rename_i hhaltc
          rw [if_neg hhaltc]
          obtain ⟨pre, trig, post, cfg', hsplit, hget, hotp, hotp2, htrig, hpost, hpre, hres⟩ :=
            ih _ _ (hinv.tail_of_step _
              (fun i hi => findOp_setOpResult_ne st o.id i _ _ hi)) hhalt
          refine ⟨o :: pre, trig, post, cfg', by simp [hsplit], hget, hotp, hotp2, htrig, ?_, ?_, ?_⟩
          · intro y hy
            have hyne : y.id ≠ o.id := hoid_rest y (by simp [hsplit, hy])
            rw [hpost y hy, findOp_setOpResult_ne st o.id y.id _ _ hyne]
          · intro y hy x hx
            rcases List.mem_cons.mp hy with rfl | hy'
            · right
              rw [hsplit] at hx
              rw [execLoop_untouched opts (pre ++ trig :: post) _ _ y.id
                  (fun z hz => hoid_rest z (hsplit ▸ hz)),
                findOp_setOpResult_eq, hofind] at hx
              injection hx with hx'
              exact ⟨cfg.toResult, by rw [← hx'], by rw [← hx']⟩
            · have hyne : y.id ≠ o.id := hoid_rest y (by simp [hsplit, hy'])
              rcases hpre y hy' x hx with hL | hR
              · left
                rw [← hL, findOp_setOpResult_ne st o.id y.id _ _ hyne]
              · exact Or.inr hR
          · obtain ⟨mid, hmid⟩ := hres
            exact ⟨cfg.toResult :: mid, by
              rw [hmid]
              simp⟩

theorem find?_map_of_id_eq (l : List PendingOperation)
    (f : PendingOperation → PendingOperation) (hf : ∀ o, (f o).id = o.id) (j : String) :
    (l.map f).find? (fun o => o.id == j) = (l.find? (fun o => o.id == j)).map f := by
  induction l with
  | nil => rfl
  | cons a rest ih =>
    by_cases h : (a.id == j) = true
    · have hfa : ((f a).id == j) = true := by rw [hf]; exact h
      simp [List.find?, h, hfa]
    · have hfa : ((f a).id == j) = false := by rw [hf]; simpa using h
      simp [List.find?, h, hfa, ih]

theorem execMany_append (a b : List ExecuteOptions) (st : MockConnectorStateData) :
    execMany (a ++ b) st = execMany b (execMany a st) := by
  unfold execMany
  rw [List.foldl_append]

theorem noTrailingWS_empty : noTrailingWS "" := by
  intro c hc
  cases hc

/-- The server execute loop never touches the session or the OTP holder. -/
theorem srvExecLoop_frame (fn : List String → ExecOutcome) :
    ∀ (l : List SrvOperation) (st : ConnectorState)
      (acc : List (String × NpmExecResult)),
    (srvExecLoop fn l st acc).1.session = st.session ∧
    (srvExecLoop fn l st acc).1.otp = st.otp := by
  intro l
  induction l with
  | nil => intro st acc; exact ⟨rfl, rfl⟩
  | cons op rest ih =>
    intro st acc
    rw [srvExecLoop]
    exact ih _ _

theorem approveOperation_find_none {st : MockConnectorStateData} {id : String}
    (hf : st.operations.find? (fun o => o.id == id) = none) :
    approveOperation st id = (st, none) := by
  unfold approveOperation
  simp only [hf]

theorem approveOperation_not_pending {st : MockConnectorStateData} {id : String}
    {op : PendingOperation} (hf : st.operations.find? (fun o => o.id == id) = some op)
    (hp : op.status ≠ .pending) : approveOperation st id = (st, none) := by
  unfold approveOperation
  simp only [hf, if_pos hp]

theorem approveOperation_pending {st : MockConnectorStateData} {id : String}
    {op : PendingOperation} (hf : st.operations.find? (fun o => o.id == id) = some op)
    (hp : op.status = .pending) :
    approveOperation st id =
      ({ st with operations := updateOpFirst st.operations id (fun o => { o with status := .approved }) },
        some { op with status := .approved }) := by
  unfold approveOperation
  simp only [hf, if_neg (not_not_intro hp)]

theorem retryOperation_find_none {st : MockConnectorStateData} {id : String}
    (hf : st.operations.find? (fun o => o.id == id) = none) :
    retryOperation st id = (st, none) := by
  unfold retryOperation
  simp only [hf]

theorem retryOperation_not_failed {st : MockConnectorStateData} {id : String}
    {op : PendingOperation} (hf : st.operations.find? (fun o => o.id == id) = some op)
    (hp : op.status ≠ .failed) : retryOperation st id = (st, none) := by
  unfold retryOperation
  simp only [hf, if_pos hp]

theorem retryOperation_failed {st : MockConnectorStateData} {id : String}
    {op : PendingOperation} (hf : st.operations.find? (fun o => o.id == id) = some op)
    (hp : op.status = .failed) :
    retryOperation st id =
      ({ st with operations := updateOpFirst st.operations id (fun o => { o with status := .approved, result := none }) },
        some { op with status := .approved, result := none }) := by
  unfold retryOperation
  simp only [hf, if_neg (not_not_intro hp)]

/-! ## Claim theorems -/

/-- C4 (counterexample): the claim says the auth gate rejects every malformed
header (one not of the form `Bearer <token>`). The header `"s"` is not of
that form (witnessed by the failing prefix check), yet with secret `"s"` the
gate passes it, because `replace('Bearer ', '')` leaves a pattern-free header
unchanged. -/
theorem c4_auth_gate_counterexample :
    validateToken "s" (some "s") = true ∧ "Bearer ".isPrefixOf "s" = false := by
  constructor
  · rfl
  · rfl

/-- C4 (amended): the auth gate rejects an absent or empty header; a header
of the form `Bearer <t>` passes exactly when `t` equals the secret; however,
the gate merely deletes the first occurrence of `'Bearer '` and compares, so
a bare header equal to a nonempty secret that does not contain `'Bearer '`
also passes. -/
theorem c4_auth_gate (secret t : String) :
    validateToken secret none = false ∧
    validateToken secret (some "") = false ∧
    validateToken secret (some ("Bearer " ++ t)) = (t == secret) ∧
    (secret ≠ "" → ¬ ("Bearer ".data <:+: secret.data) →
      validateToken secret (some secret) = true) := by
  have hne : ("Bearer " ++ t) ≠ "" := by
    intro h
    have h2 := congrArg String.data h
    rw [String.data_append] at h2
    have h3 := congrArg List.length h2
    rw [List.length_append] at h3
    have h4 : "Bearer ".data.length = 7 := by decide
    have h5 : "".data.length = 0 := by decide
    omega
  refine ⟨rfl, rfl, ?_, ?_⟩
  · show (if ("Bearer " ++ t) = "" then false
      else jsReplaceFirst ("Bearer " ++ t) "Bearer " == secret) = (t == secret)
    rw [if_neg hne, jsReplaceFirst_bearer]
  · intro hs hocc
    show (if secret = "" then false else jsReplaceFirst secret "Bearer " == secret) = true
    rw [if_neg hs, jsReplaceFirst_of_no_occurrence _ _ hocc]
    simp

/-- C4 (witness): the amended gate behaviour at secret `"s"` and token
`"s"`. -/
theorem c4_auth_gate_witness :
    ("s" : String) ≠ "" ∧ ¬ ("Bearer ".data <:+: "s".data) ∧
    (validateToken "s" none = false ∧
     validateToken "s" (some "") = false ∧
     validateToken "s" (some ("Bearer " ++ "s")) = ("s" == "s") ∧
     (("s" : String) ≠ "" → ¬ ("Bearer ".data <:+: "s".data) →
       validateToken "s" (some "s") = true)) :=
  ⟨by decide, by decide, c4_auth_gate "s" "s"⟩

/-- C5: `connect` with a wrong token fails with `Unauthorized`/`Invalid token`
and performs no state mutation: the mock returns `false` on the unchanged
state, and the server handler returns the 401 error on the unchanged state
(`npmUser` and `connectedAt` exactly as before). -/
theorem c5_connect_unauthorized :
    (∀ (st : MockConnectorStateData) (token : String) (now : Nat),
      token ≠ st.config.token → mockConnect st token now = (st, false)) ∧
    (∀ (tok : String) (npmUser : Option String) (now : Nat)
      (body : Option (Option String)) (sst : ConnectorState),
      body.bind id ≠ some tok →
      connectRoute tok npmUser now body sst =
        (sst, Except.error { statusCode := 401, message := "Invalid token" })) := by
  constructor
  · intro st token now h
    unfold mockConnect
    rw [if_pos h]
  · intro tok npmUser now body sst h
    unfold connectRoute
    rw [if_pos h]

/-- C5 (witness): a wrong-token connect against concrete states. -/
theorem c5_connect_unauthorized_witness :
    ("bad" : String) ≠ (createMockConnectorState { token := "tok", npmUser := "u" }).config.token ∧
    mockConnect (createMockConnectorState { token := "tok", npmUser := "u" }) "bad" 5 =
      (createMockConnectorState { token := "tok", npmUser := "u" }, false) ∧
    ((some (some "bad") : Option (Option String)).bind id ≠ some "tok") ∧
    connectRoute "tok" (some "u") 5 (some (some "bad"))
        { session := { token := "tok", connectedAt := 0, npmUser := none },
          operations := [], otp := none } =
      ({ session := { token := "tok", connectedAt := 0, npmUser := none },
         operations := [], otp := none },
        Except.error { statusCode := 401, message := "Invalid token" }) :=
  ⟨by decide,
    c5_connect_unauthorized.1 _ "bad" 5 (by decide),
    by decide,
    c5_connect_unauthorized.2 "tok" (some "u") 5 (some (some "bad")) _ (by decide)⟩

/-- C7: `execNpm` never propagates an exception: the `try`/`catch` converts
every spawn outcome into a structured result. On resolution both streams are
trimmed and the exit code is 0; on any rejection carrying no exit code (spawn
failure, timeout) or a nonzero exit code, the result has `exitCode ≠ 0`, both
streams are captured (trimmed when present, with `String(error)` as the
stderr fallback), and the trimmed streams carry no trailing whitespace. -/
theorem c7_exec_npm_total (fn : List String → ExecOutcome) (args : List String)
    (otp : Option String) :
    (∀ so se, fn (npmCmd args otp) = .success so se →
      execNpm fn args otp = { stdout := jsTrim so, stderr := jsTrim se, exitCode := 0 } ∧
      noTrailingWS (execNpm fn args otp).stdout ∧
      noTrailingWS (execNpm fn args otp).stderr) ∧
    (∀ so se code errStr, fn (npmCmd args otp) = .failure so se code errStr →
      (code = none ∨ ∃ c, code = some c ∧ c ≠ 0) →
      (execNpm fn args otp).exitCode ≠ 0 ∧
      (execNpm fn args otp).stdout = (so.map jsTrim).getD "" ∧
      (execNpm fn args otp).stderr = (se.map jsTrim).getD errStr ∧
      noTrailingWS (execNpm fn args otp).stdout ∧
      (∀ s, se = some s → noTrailingWS (execNpm fn args otp).stderr)) := by
  constructor
  · intro so se hfn
    unfold execNpm
    rw [hfn]
    exact ⟨rfl, jsTrim_noTrailingWS so, jsTrim_noTrailingWS se⟩
  · intro so se code errStr hfn hcode
    unfold execNpm
    rw [hfn]
    refine ⟨?_, rfl, rfl, ?_, ?_⟩
    · rcases hcode with rfl | ⟨c, rfl, hc⟩
      · simp
      · simpa using hc
    · cases so with
      | none => exact noTrailingWS_empty
      | some sout => exact jsTrim_noTrailingWS sout
    · intro str hstr
      subst hstr
      exact jsTrim_noTrailingWS str

/-- C7 (witness): a rejection with captured streams and exit code 2. -/
theorem c7_exec_npm_total_witness :
    ((fun _ => ExecOutcome.failure (some "out ") (some " err") (some 2) "Error: x")
        (npmCmd ["whoami"] none) =
      ExecOutcome.failure (some "out ") (some " err") (some 2) "Error: x") ∧
    ((some 2 : Option Int) = none ∨ ∃ c, (some 2 : Option Int) = some c ∧ c ≠ 0) ∧
    (execNpm (fun _ => ExecOutcome.failure (some "out ") (some " err") (some 2) "Error: x")
        ["whoami"] none).exitCode ≠ 0 :=
  ⟨rfl, Or.inr ⟨2, rfl, by decide⟩,
    ((c7_exec_npm_total
        (fun _ => ExecOutcome.failure (some "out ") (some " err") (some 2) "Error: x")
        ["whoami"] none).2 (some "out ") (some " err") (some 2) "Error: x" rfl
      (Or.inr ⟨2, rfl, by decide⟩)).1⟩

/-- C9: `execute` only reads the OTP holder and the session: after the
`/execute` handler runs, the stored OTP, the session token, `connectedAt` and
`npmUser` are unchanged; and no handler other than `/otp` ever writes the OTP
holder (`/connect` touches only the session). -/
theorem c9_otp_frame (tok : String) (auth : Option String)
    (fn : List String → ExecOutcome) (st : ConnectorState) (npmUser : Option String)
    (now : Nat) (body : Option (Option String)) (newId : String)
    (input : OperationInput) (newIds : List String) (inputs : List OperationInput)
    (qid : String) :
    (executeRoute tok auth fn st).1.otp = st.otp ∧
    (executeRoute tok auth fn st).1.session = st.session ∧
    (connectRoute tok npmUser now body st).1.otp = st.otp ∧
    (stateRoute tok auth st).1 = st ∧
    (operationsRoute tok auth newId now input st).1.otp = st.otp ∧
    (batchRoute tok auth newIds now inputs st).1.otp = st.otp ∧
    (approveRoute tok auth qid st).1.otp = st.otp ∧
    (approveAllRoute tok auth st).1.otp = st.otp ∧
    (deleteRoute tok auth qid st).1.otp = st.otp ∧
    (deleteAllRoute tok auth st).1.otp = st.otp := by
  have hexec : (executeRoute tok auth fn st).1.otp = st.otp ∧
      (executeRoute tok auth fn st).1.session = st.session := by
    unfold executeRoute
    split
    · exact ⟨rfl, rfl⟩
    · rcases hsrv : srvExecLoop fn
          (st.operations.filter (fun op => op.status = .approved)) st [] with ⟨st2, results⟩
      have hframe := srvExecLoop_frame fn
        (st.operations.filter (fun op => op.status = .approved)) st []
      rw [hsrv] at hframe
      simp only [hsrv]
      exact ⟨hframe.2, hframe.1⟩
  refine ⟨hexec.1, hexec.2, ?_, ?_, ?_, ?_, ?_, ?_, ?_, ?_⟩
  · unfold connectRoute
    split <;> rfl
  · unfold stateRoute
    split <;> rfl
  · unfold operationsRoute
    split <;> rfl
  · unfold batchRoute
    split <;> rfl
  · unfold approveRoute
    repeat' split
    all_goals rfl
  · unfold approveAllRoute
    split <;> rfl
  · unfold deleteRoute
    repeat' split
    all_goals rfl
  · unfold deleteAllRoute
    split <;> rfl

/-- C10: an authenticated `POST /otp` whose body is absent, or whose body has
no `otp` field, stores `null` — it clears any previously set OTP rather than
leaving it unchanged. -/
theorem c10_otp_clear (tok : String) (auth : Option String) (st : ConnectorState)
    (hauth : validateToken tok auth = true) :
    (otpRoute tok auth none st).1.otp = none ∧
    (otpRoute tok auth (some none) st).1.otp = none := by
  constructor <;> simp [otpRoute, hauth]

/-- C10 (witness): clearing a previously set OTP with a bodyless request. -/
theorem c10_otp_clear_witness :
    validateToken "s" (some "Bearer s") = true ∧
    (otpRoute "s" (some "Bearer s") none
        { session := { token := "s", connectedAt := 0, npmUser := none },
          operations := [], otp := some "123456" }).1.otp = none :=
  ⟨by decide,
    (c10_otp_clear "s" (some "Bearer s") _ (by decide)).1⟩

/-- Concrete demonstration operation for the C6 witness. -/
def c6DemoPending : PendingOperation where
  id := "op-1"
  type := .teamCreate
  params := []
  description := "d"
  command := "c"
  status := .pending
  createdAt := 0

/-- Concrete demonstration operation for the C6 witness. -/
def c6DemoCompleted : PendingOperation where
  id := "op-2"
  type := .teamCreate
  params := []
  description := "d"
  command := "c"
  status := .completed
  createdAt := 0

/-- Concrete demonstration store for the C6 witness. -/
def c6DemoState : MockConnectorStateData :=
  { createMockConnectorState { token := "t", npmUser := "u" } with
    operations := [c6DemoPending, c6DemoCompleted] }

/-- Concrete empty server state for the C6 witness. -/
def c6DemoSrvState : ConnectorState :=
  { session := { token := "t", connectedAt := 0, npmUser := none }, operations := [], otp := none }

/-- C6: `approveAll` returns exactly the number of operations that were
`pending` at call time; exactly those operations become `approved` (in place)
and every other operation is left entirely unchanged — in the mock store and
in the server's `/approve-all` handler alike. -/
theorem c6_approve_all :
    (∀ st : MockConnectorStateData,
      (approveAll st).2 = (st.operations.filter (fun op => op.status = .pending)).length ∧
      (approveAll st).1.operations.length = st.operations.length ∧
      (∀ (k : Nat) (op : PendingOperation), st.operations[k]? = some op →
        (op.status = .pending →
          (approveAll st).1.operations[k]? = some { op with status := .approved }) ∧
        (op.status ≠ .pending → (approveAll st).1.operations[k]? = some op))) ∧
    (∀ (tok : String) (auth : Option String) (sst : ConnectorState),
      validateToken tok auth = true →
      (approveAllRoute tok auth sst).2 =
        Except.ok (sst.operations.filter (fun op => op.status = .pending)).length ∧
      (approveAllRoute tok auth sst).1.operations.length = sst.operations.length ∧
      (∀ (k : Nat) (op : SrvOperation), sst.operations[k]? = some op →
        (op.status = .pending →
          (approveAllRoute tok auth sst).1.operations[k]? =
            some { op with status := .approved }) ∧
        (op.status ≠ .pending →
          (approveAllRoute tok auth sst).1.operations[k]? = some op))) := by
  constructor
  · intro st
    have hspec := approveAllList_spec st.operations
    have h1 : (approveAll st).1.operations =
        st.operations.map (fun op =>
          if op.status = .pending then { op with status := .approved } else op) := by
      unfold approveAll
      rw [hspec]
    have h2 : (approveAll st).2 =
        (st.operations.filter (fun op => op.status = .pending)).length := by
      unfold approveAll
      rw [hspec]
    refine ⟨h2, by rw [h1, List.length_map], ?_⟩
    intro k op hk
    rw [h1]
    constructor
    · intro hp
      rw [List.getElem?_map, hk]
      simp [hp]
    · intro hp
      rw [List.getElem?_map, hk]
      simp [hp]
  · intro tok auth sst hauth
    have hcond : ¬ ¬ validateToken tok auth = true := by rw [hauth]; simp
    have hspec := srvApproveAllList_spec sst.operations
    have h1 : (approveAllRoute tok auth sst).1.operations =
        sst.operations.map (fun op =>
          if op.status = .pending then { op with status := .approved } else op) := by
      unfold approveAllRoute
      rw [if_neg hcond, hspec]
    have h2 : (approveAllRoute tok auth sst).2 =
        Except.ok (sst.operations.filter (fun op => op.status = .pending)).length := by
      unfold approveAllRoute
      rw [if_neg hcond, hspec]
    refine ⟨h2, by rw [h1, List.length_map], ?_⟩
    intro k op hk
    rw [h1]
    constructor
    · intro hp
      rw [List.getElem?_map, hk]
      simp [hp]
    · intro hp
      rw [List.getElem?_map, hk]
      simp [hp]

/-- C6 (witness): `approveAll` on a two-operation store with one pending and
one completed operation. -/
theorem c6_approve_all_witness :
    (approveAll c6DemoState).2 =
      (c6DemoState.operations.filter (fun op => op.status = .pending)).length ∧
    validateToken "t" (some "Bearer t") = true ∧
    (approveAllRoute "t" (some "Bearer t") c6DemoSrvState).2 = Except.ok 0 :=
  ⟨(c6_approve_all.1 c6DemoState).1,
    by decide,
    ((c6_approve_all.2 "t" (some "Bearer t") c6DemoSrvState (by decide)).1).trans rfl⟩

/-- C2: the status machine. `approve` moves `pending → approved` and is a
no-op returning `null` from any other status (or unknown id); `approveAll`
moves exactly the pending operations to `approved`; `retry` moves
`failed → approved` and is a no-op returning `null` otherwise; one `execute`
pass moves `approved` operations to `completed`/`failed` and leaves every
other operation's status unchanged. -/
theorem c2_status_machine :
    (∀ (st : MockConnectorStateData) (id : String),
      ((approveOperation st id).2 = none → (approveOperation st id).1 = st) ∧
      (findOp st id = none → (approveOperation st id).2 = none) ∧
      (∀ op, findOp st id = some op → op.status ≠ .pending →
        (approveOperation st id).2 = none) ∧
      (∀ j, statusOf (approveOperation st id).1 j = statusOf st j ∨
        (statusOf st j = some .pending ∧
          statusOf (approveOperation st id).1 j = some .approved))) ∧
    (∀ (st : MockConnectorStateData) (j : String),
      statusOf (approveAll st).1 j = statusOf st j ∨
        (statusOf st j = some .pending ∧ statusOf (approveAll st).1 j = some .approved)) ∧
    (∀ (st : MockConnectorStateData) (id : String),
      ((retryOperation st id).2 = none → (retryOperation st id).1 = st) ∧
      (findOp st id = none → (retryOperation st id).2 = none) ∧
      (∀ op, findOp st id = some op → op.status ≠ .failed →
        (retryOperation st id).2 = none) ∧
      (∀ j, statusOf (retryOperation st id).1 j = statusOf st j ∨
        (statusOf st j = some .failed ∧
          statusOf (retryOperation st id).1 j = some .approved))) ∧
    (∀ (opts : ExecuteOptions) (st : MockConnectorStateData),
      (st.operations.map (·.id)).Nodup →
      ∀ j, statusOf (executeOperations opts st).1 j = statusOf st j ∨
        (statusOf st j = some .approved ∧
          (statusOf (executeOperations opts st).1 j = some .completed ∨
            statusOf (executeOperations opts st).1 j = some .failed))) := by
  refine ⟨?_, ?_, ?_, ?_⟩
  · intro st id
    refine ⟨?_, ?_, ?_, ?_⟩
    · intro hnone
      rcases hf : st.operations.find? (fun o => o.id == id) with _ | op
      · rw [approveOperation_find_none hf]
      · by_cases hp : op.status = .pending
        · rw [approveOperation_pending hf hp] at hnone
          cases hnone
        · rw [approveOperation_not_pending hf hp]
    · intro hf
      rw [approveOperation_find_none hf]
    · intro op hf hp
      rw [approveOperation_not_pending hf hp]
    · intro j
      rcases hf : st.operations.find? (fun o => o.id == id) with _ | op
      · rw [approveOperation_find_none hf]
        exact Or.inl rfl
      · by_cases hp : op.status = .pending
        · rw [approveOperation_pending hf hp]
          by_cases hj : j = id
          · subst hj
            right
            constructor
            · unfold statusOf findOp
              rw [hf]
              simp [hp]
            · unfold statusOf findOp
              rw [find?_updateOpFirst_eq st.operations j
                (fun o => { o with status := OperationStatus.approved }) (fun _ => rfl), hf]
              rfl
          · left
            unfold statusOf findOp
            rw [find?_updateOpFirst_ne st.operations id j
              (fun o => { o with status := OperationStatus.approved }) (fun _ => rfl) hj]
        · rw [approveOperation_not_pending hf hp]
          exact Or.inl rfl
  · intro st j
    have h1 : (approveAll st).1.operations =
        st.operations.map (fun op =>
          if op.status = .pending then { op with status := .approved } else op) := by
      unfold approveAll
      rw [approveAllList_spec]
    unfold statusOf findOp
    rw [h1, find?_map_of_id_eq st.operations _ (fun o => by
      by_cases h : o.status = .pending <;> simp [h]) j]
    rcases hf : st.operations.find? (fun o => o.id == j) with _ | op
    · rw [hf]
      exact Or.inl rfl
    · rw [hf]
      by_cases hp : op.status = .pending
      · right
        exact ⟨by simp [hp], by simp [hp]⟩
      · left
        simp [hp]
  · intro st id
    refine ⟨?_, ?_, ?_, ?_⟩
    · intro hnone
      rcases hf : st.operations.find? (fun o => o.id == id) with _ | op
      · rw [retryOperation_find_none hf]
      · by_cases hp : op.status = .failed
        · rw [retryOperation_failed hf hp] at hnone
          cases hnone
        · rw [retryOperation_not_failed hf hp]
    · intro hf
      rw [retryOperation_find_none hf]
    · intro op hf hp
      rw [retryOperation_not_failed hf hp]
    · intro j
      rcases hf : st.operations.find? (fun o => o.id == id) with _ | op
      · rw [retryOperation_find_none hf]
        exact Or.inl rfl
      · by_cases hp : op.status = .failed
        · rw [retryOperation_failed hf hp]
          by_cases hj : j = id
          · subst hj
            right
            constructor
            · unfold statusOf findOp
              rw [hf]
              simp [hp]
            · unfold statusOf findOp
              rw [find?_updateOpFirst_eq st.operations j
                (fun o => { o with status := OperationStatus.approved, result := none })
                (fun _ => rfl), hf]
              rfl
          · left
            unfold statusOf findOp
            rw [find?_updateOpFirst_ne st.operations id j
              (fun o => { o with status := OperationStatus.approved, result := none })
              (fun _ => rfl) hj]
        · rw [retryOperation_not_failed hf hp]
          exact Or.inl rfl
  · intro opts st hnd j
    rcases executeOperations_execStep opts st hnd j with h | ⟨x, r', s', h0, happ, h1, hs⟩
    · left
      unfold statusOf
      rw [h]
    · right
      refine ⟨?_, ?_⟩
      · unfold statusOf
        rw [h0]
        simp [happ]
      · unfold statusOf
        rw [h1]
        rcases hs with rfl | rfl
        · exact Or.inl (by simp)
        · exact Or.inr (by simp)

/-- Concrete demonstration store for the C2 witness: one completed
operation. -/
def c2DemoState : MockConnectorStateData :=
  { createMockConnectorState { token := "t", npmUser := "u" } with
    operations := [c6DemoCompleted] }

/-- C2 (witness): approving an operation that is not `pending` (here
`completed`) is a `null` no-op. -/
theorem c2_status_machine_witness :
    findOp c2DemoState "op-2" = some c6DemoCompleted ∧
    c6DemoCompleted.status ≠ OperationStatus.pending ∧
    (approveOperation c2DemoState "op-2").2 = none :=
  ⟨by decide, by decide,
    (c2_status_machine.1 c2DemoState "op-2").2.2.1 c6DemoCompleted (by decide) (by decide)⟩

/-- C3: an operation with `dependsOn = X`, where X is absent from the store
or not `completed` by the end of any number of `execute()` calls, is skipped
by every one of those calls: it is never attempted (so it never reaches
`running`), and it survives every call entirely unchanged — in particular an
`approved` operation remains `approved`. -/
theorem c3_dependency_gate (calls : List ExecuteOptions)
    (st : MockConnectorStateData) (op : PendingOperation) (X : String)
    (hnd : (st.operations.map (·.id)).Nodup)
    (hop : findOp st op.id = some op)
    (hdep : op.dependsOn = some X)
    (hX : ∀ y, findOp (execMany calls st) X = some y → y.status ≠ .completed) :
    findOp (execMany calls st) op.id = some op ∧
    (op.status = .approved → statusOf (execMany calls st) op.id = some .approved) ∧
    (∀ cs1 cs2, calls = cs1 ++ cs2 → findOp (execMany cs1 st) op.id = some op) := by
  have hmain := execMany_skip calls st hnd hdep hop hX
  refine ⟨hmain, ?_, ?_⟩
  · intro ha
    unfold statusOf
    rw [hmain]
    simp [ha]
  · intro cs1 cs2 hcat
    subst hcat
    rw [execMany_append] at hX
    have hnd1 : ((execMany cs1 st).operations.map (·.id)).Nodup := by
      rw [execMany_map_id]
      exact hnd
    have hXmid : ∀ y, findOp (execMany cs1 st) X = some y → y.status ≠ .completed := by
      intro y hy hyc
      exact (hX y (execMany_completed_stable cs2 _ hnd1 hy hyc)) hyc
    exact execMany_skip cs1 st hnd hdep hop hXmid

/-- Concrete demonstration operation for the C3 witness: approved, waiting on
an id that was never enqueued. -/
def c3DemoOp : PendingOperation where
  id := "op-1"
  type := .teamCreate
  params := []
  description := "d"
  command := "c"
  status := .approved
  createdAt := 0
  dependsOn := some "ghost"

/-- Concrete demonstration store for the C3 witness. -/
def c3DemoState : MockConnectorStateData :=
  { createMockConnectorState { token := "t", npmUser := "u" } with
    operations := [c3DemoOp] }

/-- C3 (witness): one execute call against a store holding an approved
operation depending on a never-enqueued id leaves it approved and untouched. -/
theorem c3_dependency_gate_witness :
    (c3DemoState.operations.map (·.id)).Nodup ∧
    findOp c3DemoState c3DemoOp.id = some c3DemoOp ∧
    (∀ y, findOp (execMany [{ otp := none, results := [] }] c3DemoState) "ghost" = some y →
      y.status ≠ .completed) ∧
    findOp (execMany [{ otp := none, results := [] }] c3DemoState) c3DemoOp.id = some c3DemoOp ∧
    statusOf (execMany [{ otp := none, results := [] }] c3DemoState) c3DemoOp.id =
      some .approved := by
  refine ⟨by decide, by decide, by decide, ?_, ?_⟩
  · exact (c3_dependency_gate [{ otp := none, results := [] }] c3DemoState c3DemoOp "ghost"
      (by decide) (by decide) (by decide) (by decide)).1
  · exact (c3_dependency_gate [{ otp := none, results := [] }] c3DemoState c3DemoOp "ghost"
      (by decide) (by decide) (by decide) (by decide)).2.1 (by decide)

/-- Demonstration operation for C8: no dependency, id `"a"`. -/
def c8OpA : PendingOperation where
  id := "a"
  type := .teamCreate
  params := []
  description := "A"
  command := "c"
  status := .approved
  createdAt := 0

/-- Demonstration operation for C8: id `"b"`, depends on `"a"`. -/
def c8OpB : PendingOperation where
  id := "b"
  type := .teamCreate
  params := []
  description := "B"
  command := "c"
  status := .approved
  createdAt := 0
  dependsOn := some "a"

/-- A second, distinct operation carrying the duplicate id `"a"`. -/
def c8DupB : PendingOperation := { c8OpA with description := "B" }

/-- A topological rank for the two-element demonstration graph. -/
def c8Rank : String → Nat := fun i => if i = "a" then 0 else 1

/-- C8 (counterexample): the claim quantifies over every finite list of
operations, but on a list with a duplicated id the visited-set walk drops the
second operation: the output does not contain each input operation. -/
theorem c8_dependency_sort_counterexample :
    sortByDependencies [c8OpA, c8DupB] = [c8OpA] ∧
    c8DupB ∈ [c8OpA, c8DupB] ∧
    c8DupB ∉ sortByDependencies [c8OpA, c8DupB] := by
  refine ⟨by decide, by decide, by decide⟩

/-- C8 (amended): on every list of operations with pairwise-distinct ids the
dependency sort terminates (it is a total function whose recursion is bounded
by the visited set) and returns a permutation of its input — each operation
exactly once; and whenever the `dependsOn` graph is acyclic (witnessed by any
rank function decreasing along in-list dependency edges), every operation is
placed after its in-list dependency. Lists with duplicated ids lose the
later duplicates. -/
theorem c8_dependency_sort (ops : List PendingOperation)
    (hnd : (ops.map (·.id)).Nodup) :
    (sortByDependencies ops).Perm ops ∧
    (∀ r : String → Nat, rankedB r ops = true →
      topoSortedB ops (sortByDependencies ops) = true) := by
  refine ⟨sortByDependencies_perm ops hnd, fun r hr => ?_⟩
  rw [topoSortedB_iff]
  exact sortByDependencies_topo ops hnd r hr

/-- C8 (witness): sorting a two-element dependent list permutes it into
dependency order. -/
theorem c8_dependency_sort_witness :
    (([c8OpB, c8OpA].map (·.id)).Nodup) ∧
    rankedB c8Rank [c8OpB, c8OpA] = true ∧
    (sortByDependencies [c8OpB, c8OpA]).Perm [c8OpB, c8OpA] ∧
    topoSortedB [c8OpB, c8OpA] (sortByDependencies [c8OpB, c8OpA]) = true :=
  ⟨by decide, by decide,
    (c8_dependency_sort [c8OpB, c8OpA] (by decide)).1,
    (c8_dependency_sort [c8OpB, c8OpA] (by decide)).2 c8Rank (by decide)⟩

/-- Demonstration operation for C1: approved, with a configured result that
signals OTP step-up. -/
def c1DemoOp : PendingOperation where
  id := "op-1"
  type := .teamCreate
  params := []
  description := "create team"
  command := "npm team create @acme:core"
  status := .approved
  createdAt := 0

/-- Demonstration store for C1. -/
def c1DemoState : MockConnectorStateData :=
  { createMockConnectorState { token := "t", npmUser := "u" } with
    operations := [c1DemoOp] }

/-- Demonstration execute options for C1: no OTP, and a configured result for
`op-1` whose `requiresOtp` flag is set (exit code defaulting to 1). -/
def c1DemoOpts : ExecuteOptions :=
  { otp := none, results := [("op-1", { requiresOtp := some true })] }

/-- C1 (counterexample): the claim says the triggering operation is left
unresolved (not `failed`). In the code the status is assigned from the
configured exit code (defaulting to 1) before the OTP check, so the halt
returns `otpRequired` with the trigger already marked `failed`. -/
theorem c1_otp_halt_counterexample :
    (executeOperations c1DemoOpts c1DemoState).2.otpRequired = some true ∧
    statusOf (executeOperations c1DemoOpts c1DemoState).1 "op-1" = some .failed := by
  refine ⟨by decide, by decide⟩

/-- C1 (amended): an `execute()` call with no OTP that hits an operation
whose command result signals OTP-required halts immediately: the processing
order splits around the trigger; the trigger's configured result demanded
OTP; the trigger is resolved per its configured exit code (`completed` on 0,
otherwise `failed`) — not left unresolved; every subsequent operation is
untouched (an approved one remains approved); every earlier operation was
either skipped (untouched) or resolved according to its recorded result (in
particular one that succeeded with exit code 0 is `completed`); and the
returned results are those accumulated so far, ending with the trigger's. -/
theorem c1_otp_halt (opts : ExecuteOptions) (st : MockConnectorStateData)
    (_hotp : opts.otp = none) (hnd : (st.operations.map (·.id)).Nodup)
    (hhalt : (executeOperations opts st).2.otpRequired = some true) :
    ∃ pre trig post cfg,
      sortByDependencies (st.operations.filter (fun op => op.status = .approved)) =
        pre ++ trig :: post ∧
      getKey opts.results trig.id = some cfg ∧
      cfg.requiresOtp = some true ∧
      (∃ x, findOp (executeOperations opts st).1 trig.id = some x ∧
        x.status = (if cfg.toResult.exitCode = 0 then .completed else .failed) ∧
        x.result = some cfg.toResult) ∧
      (∀ y ∈ post, findOp (executeOperations opts st).1 y.id = findOp st y.id) ∧
      (∀ y ∈ pre, ∀ x, findOp (executeOperations opts st).1 y.id = some x →
        (findOp st y.id = some x ∨
          ∃ r, x.result = some r ∧
            x.status = (if r.exitCode = 0 then .completed else .failed))) ∧
      (∃ mid, (executeOperations opts st).2.results = mid ++ [cfg.toResult]) := by
  rw [executeOperations_eq] at hhalt ⊢
  obtain ⟨pre, trig, post, cfg, hsplit, hget, hreq, _, htrig, hpost, hpre, mid, hmid⟩ :=
    execLoop_halt opts _ st [] (executeOperations_loopInv st hnd) hhalt
  refine ⟨pre, trig, post, cfg, hsplit, hget, hreq, htrig, hpost, hpre, mid, ?_⟩
  rw [hmid]
  simp

/-- C1 (witness): the demonstration halt, with the trigger resolved as
`failed` (its configured exit code defaults to 1). -/
theorem c1_otp_halt_witness :
    c1DemoOpts.otp = none ∧
    ((c1DemoState.operations.map (·.id)).Nodup) ∧
    (executeOperations c1DemoOpts c1DemoState).2.otpRequired = some true ∧
    (∃ pre trig post cfg,
      sortByDependencies (c1DemoState.operations.filter (fun op => op.status = .approved)) =
        pre ++ trig :: post ∧
      getKey c1DemoOpts.results trig.id = some cfg ∧
      cfg.requiresOtp = some true ∧
      (∃ x, findOp (executeOperations c1DemoOpts c1DemoState).1 trig.id = some x ∧
        x.status = (if cfg.toResult.exitCode = 0 then .completed else .failed) ∧
        x.result = some cfg.toResult) ∧
      (∀ y ∈ post, findOp (executeOperations c1DemoOpts c1DemoState).1 y.id =
        findOp c1DemoState y.id) ∧
      (∀ y ∈ pre, ∀ x,
        findOp (executeOperations c1DemoOpts c1DemoState).1 y.id = some x →
        (findOp c1DemoState y.id = some x ∨
          ∃ r, x.result = some r ∧
            x.status = (if r.exitCode = 0 then .completed else .failed))) ∧
      (∃ mid, (executeOperations c1DemoOpts c1DemoState).2.results =
        mid ++ [cfg.toResult])) :=
  ⟨rfl, by decide, by decide,
    c1_otp_halt c1DemoOpts c1DemoState rfl (by decide) (by decide)⟩

end Npmx
